import Mathlib

/-!
Verification of the Luffy autoposting service (src/services/autopost.py).

The embedding models Python values with a dynamic value type, models the
fallible operations of the source (attribute access, subscripting, JSON
decoding) as total Lean functions into Except or Option, and models the
run() orchestration as a function of an environment describing what each
external collaborator returns.  Fractional JSON numbers are outside the
model (they would require floating point); numbers are integers.
-/

/-- Python-like dynamic values: the universe of values flowing between the
LLM client, the JSON decoder and the autopost pipeline. -/
inductive PyVal where
  | none : PyVal
  | bool : Bool → PyVal
  | int : Int → PyVal
  | str : String → PyVal
  | list : List PyVal → PyVal
  | dict : List (String × PyVal) → PyVal

/-- Truthiness of a Python value, as used by the or-chains of the source. -/
def pyTruthy : PyVal → Bool
  | .none => false
  | .bool b => b
  | .int n => n != 0
  | .str s => s != ""
  | .list xs => !xs.isEmpty
  | .dict kvs => !kvs.isEmpty

/-- The value of v.get(k, d) on a dict; AttributeError on a non-dict
receiver, as in Python. -/
def pyGetDefault : PyVal → String → PyVal → Except String PyVal
  | .dict kvs, k, d => .ok ((kvs.lookup k).getD d)
  | _, _, _ => .error "AttributeError"

/-- Subscript access v[k]: KeyError when the key is absent, TypeError on a
non-dict receiver. -/
def pyIndex : PyVal → String → Except String PyVal
  | .dict kvs, k =>
    match kvs.lookup k with
    | some v => .ok v
    | Option.none => .error "KeyError"
  | _, _ => .error "TypeError"

/-- Python boolean or over values: a or b is a when a is truthy, else b. -/
def pyOr (a b : PyVal) : PyVal := if pyTruthy a then a else b

/-- Whether a value is a string. -/
def isStr : PyVal → Bool
  | .str _ => true
  | _ => false

/-- Python slicing value[:n]; defined for strings and lists, TypeError on
other receivers. -/
def pySlice : PyVal → Nat → Except String PyVal
  | .str s, n => .ok (.str ⟨s.data.take n⟩)
  | .list xs, n => .ok (.list (xs.take n))
  | _, _ => .error "TypeError"

/-- Whitespace for str.strip (ASCII model of the Python whitespace set). -/
def isPyWs (c : Char) : Bool :=
  c = ' ' || c = '\t' || c = '\n' || c = '\r' || c = '\x0b' || c = '\x0c'

/-- str.strip(): remove leading and trailing whitespace. -/
def strStrip (s : String) : String :=
  ⟨((s.data.dropWhile isPyWs).reverse.dropWhile isPyWs).reverse⟩

/-- String slicing s[:n], counting code points like Python. -/
def strTake (s : String) (n : Nat) : String := ⟨s.data.take n⟩

/-- Modelled from the spec: the tool registry (module tools.registry, not
among the provided sources) maps the two required tool names web_search and
generate_image to their capabilities; the pipeline consults only the set of
registered names. -/
def TOOLS : List String := ["web_search", "generate_image"]

/-- The module-level fallback tweet list of the source (FALLBACK_TWEETS). -/
def FALLBACK_TWEETS : List String :=
  [ "Dream big and chase your freedom! Nothing can stop a determined heart! 🏴‍☠️💪"
  , "Adventure waits beyond the horizon. Keep sailing toward your dreams! 🌊☀️"
  , "Friends are your true treasure. Stick together and never give up! ❤️🏴‍☠️"
  , "Even if the world says \u0027be realistic\u0027, keep following your own path! 🌟"
  , "A pirate\u0027s spirit never fades. Stand tall and laugh in the face of danger! ☠️😄"
  , "No storm can break someone with a will to live freely! 🌪️✊"
  , "Eat, fight, laugh, and live fully—freedom is worth everything! 🍖⚡" ]

/-- One pass of the loop of AutoPostService._sanitize_plan (source lines
64 to 84): keep dict entries naming a registered tool, skip every
generate_image entry after the first, and stop as soon as three entries
have been collected. -/
def sanitizeLoop : List PyVal → Bool → List (String × PyVal) → List (String × PyVal)
  | [], _, acc => acc
  | step :: rest, hasImage, acc =>
    match step with
    | .dict kvs =>
      match (kvs.lookup "tool").getD .none with
      | .str t =>
        if t ∈ TOOLS then
          if t == "generate_image" && hasImage then
            sanitizeLoop rest hasImage acc
          else
            let acc2 := acc ++ [(t, (kvs.lookup "params").getD (.dict []))]
            if 3 ≤ acc2.length then acc2
            else sanitizeLoop rest (hasImage || t == "generate_image") acc2
        else sanitizeLoop rest hasImage acc
      | _ => sanitizeLoop rest hasImage acc
    | _ => sanitizeLoop rest hasImage acc

/-- The dict literal rebuilt for each kept step (source line 80). -/
def mkStep (p : String × PyVal) : PyVal :=
  .dict [("tool", .str p.1), ("params", p.2)]

/-- Whether a kept pair is a generate_image step. -/
def isImagePair (p : String × PyVal) : Bool := p.1 == "generate_image"

/-- AutoPostService._sanitize_plan (source lines 56 to 91): loop over the
entries, then move the single surviving generate_image step to the end. -/
def sanitize_plan (plan : PyVal) : List PyVal :=
  match plan with
  | .list steps =>
    let kept := sanitizeLoop steps false []
    let image := kept.filter isImagePair
    let nonImage := kept.filter (fun p => !isImagePair p)
    (nonImage ++ image.take 1).map mkStep
  | _ => []

/-- JSON whitespace skipping. -/
def skipWs (cs : List Char) : List Char :=
  cs.dropWhile (fun c => c == ' ' || c == '\t' || c == '\n' || c == '\r')

/-- The character of a decimal digit. -/
def digitChar (n : Nat) : Char := Char.ofNat (48 + n)

/-- Decimal digit characters of a natural number, most significant first. -/
def natChars (n : Nat) : List Char :=
  if n < 10 then [digitChar n]
  else natChars (n / 10) ++ [digitChar (n % 10)]
decreasing_by exact Nat.div_lt_self (by omega) (by omega)

/-- Decimal characters of an integer. -/
def intChars : Int → List Char
  | .ofNat n => natChars n
  | .negSucc m => '-' :: natChars (m + 1)

/-- Numeric value of a decimal digit character. -/
def digitVal (c : Char) : Nat := c.toNat - 48

/-- Consume a maximal run of decimal digits, accumulating their value. -/
def parseDigitsAux (acc : Nat) : List Char → Nat × List Char
  | [] => (acc, [])
  | c :: cs => if c.isDigit then parseDigitsAux (acc * 10 + digitVal c) cs else (acc, c :: cs)

/-- Parse a nonempty run of decimal digits. -/
def parseDigits : List Char → Option (Nat × List Char)
  | c :: cs => if c.isDigit then some (parseDigitsAux 0 (c :: cs)) else Option.none
  | [] => Option.none

/-- Lower-case hexadecimal digit character. -/
def hexDigitChar (n : Nat) : Char :=
  if n < 10 then Char.ofNat (48 + n) else Char.ofNat (87 + n)

/-- The two hexadecimal digits of a byte-sized natural number. -/
def hexByte (n : Nat) : List Char := hexDigitChar (n / 16) :: [hexDigitChar (n % 16)]

/-- Value of a hexadecimal digit character. -/
def hexVal (c : Char) : Option Nat :=
  if '0' ≤ c ∧ c ≤ '9' then some (c.toNat - 48)
  else if 'a' ≤ c ∧ c ≤ 'f' then some (c.toNat - 87)
  else if 'A' ≤ c ∧ c ≤ 'F' then some (c.toNat - 55)
  else Option.none

/-- JSON string escaping of one character (the canonical encoder escapes the
quote, the backslash, the common control characters and other control
characters as a hexadecimal escape). -/
def escapeChar (c : Char) : List Char :=
  if c = '"' then ['\\', '"']
  else if c = '\\' then ['\\', '\\']
  else if c = '\n' then ['\\', 'n']
  else if c = '\t' then ['\\', 't']
  else if c = '\r' then ['\\', 'r']
  else if c.toNat < 32 then '\\' :: 'u' :: '0' :: '0' :: hexByte c.toNat
  else [c]

/-- JSON string escaping of a character list. -/
def escapeList : List Char → List Char
  | [] => []
  | c :: cs => escapeChar c ++ escapeList cs

/-- Parse the body of a JSON string after the opening quote (fuel bounded;
one unit of fuel per consumed character suffices). -/
def parseStringAux : Nat → List Char → List Char → Option (String × List Char)
  | 0, _, _ => Option.none
  | _ + 1, _, [] => Option.none
  | fuel + 1, acc, c :: cs =>
    if c = '"' then some (⟨acc.reverse⟩, cs)
    else if c = '\\' then
      match cs with
      | [] => Option.none
      | e :: cs2 =>
        if e = '"' then parseStringAux fuel ('"' :: acc) cs2
        else if e = '\\' then parseStringAux fuel ('\\' :: acc) cs2
        else if e = '/' then parseStringAux fuel ('/' :: acc) cs2
        else if e = 'n' then parseStringAux fuel ('\n' :: acc) cs2
        else if e = 't' then parseStringAux fuel ('\t' :: acc) cs2
        else if e = 'r' then parseStringAux fuel ('\r' :: acc) cs2
        else if e = 'b' then parseStringAux fuel ('\x08' :: acc) cs2
        else if e = 'f' then parseStringAux fuel ('\x0c' :: acc) cs2
        else if e = 'u' then
          match cs2 with
          | h1 :: h2 :: h3 :: h4 :: cs3 =>
            match hexVal h1, hexVal h2, hexVal h3, hexVal h4 with
            | some a, some b, some c2, some d =>
              let n := ((a * 16 + b) * 16 + c2) * 16 + d
              if Nat.isValidChar n then parseStringAux fuel (Char.ofNat n :: acc) cs3
              else Option.none
            | _, _, _, _ => Option.none
          | _ => Option.none
        else Option.none
    else parseStringAux fuel (c :: acc) cs

/-- Expect a given character at the head of the input. -/
def dropHead (c : Char) (l : List Char) : Option (List Char) :=
  match l with
  | x :: xs => if x = c then some xs else Option.none
  | [] => Option.none

/-- Whether a key occurs among the keys of an association list. -/
def keyMem (k : String) : List (String × PyVal) → Bool
  | [] => false
  | kv :: kvs => k == kv.1 || keyMem k kvs

/-- Python dict insertion: a repeated key keeps its original position and
takes the new value. -/
def insertKey : List (String × PyVal) → String → PyVal → List (String × PyVal)
  | [], k, v => [(k, v)]
  | kv :: rest, k, v => if kv.1 = k then (k, v) :: rest else kv :: insertKey rest k v

/-- Building a Python dict from parsed object pairs in order: on a duplicate
key the last value wins, as in json.loads. -/
def buildDict (acc : List (String × PyVal)) : List (String × PyVal) → List (String × PyVal)
  | [] => acc
  | kv :: kvs => buildDict (insertKey acc kv.1 kv.2) kvs

/-- Distinctness of the keys of an association list. -/
def keysNodupB : List (String × PyVal) → Bool
  | [] => true
  | kv :: kvs => !keyMem kv.1 kvs && keysNodupB kvs

mutual

/-- Fuel-bounded JSON value parser (a model of json.loads restricted to
null, booleans, integers, strings, arrays and objects; fractional and
exponent number forms are outside the model).  A repeated object key keeps
its original position and takes the last value, as a Python dict does. -/
def parseVal : Nat → List Char → Option (PyVal × List Char)
  | 0, _ => Option.none
  | fuel + 1, cs =>
    match skipWs cs with
    | [] => Option.none
    | c :: cs' =>
      if c = 'n' then
        match cs' with
        | 'u' :: 'l' :: 'l' :: rest => some (.none, rest)
        | _ => Option.none
      else if c = 't' then
        match cs' with
        | 'r' :: 'u' :: 'e' :: rest => some (.bool true, rest)
        | _ => Option.none
      else if c = 'f' then
        match cs' with
        | 'a' :: 'l' :: 's' :: 'e' :: rest => some (.bool false, rest)
        | _ => Option.none
      else if c = '"' then
        match parseStringAux (cs'.length + 1) [] cs' with
        | some (s, rest) => some (.str s, rest)
        | Option.none => Option.none
      else if c = '[' then
        match dropHead ']' (skipWs cs') with
        | some rest => some (.list [], rest)
        | Option.none =>
          match parseArrItems fuel cs' with
          | some (vs, rest) => some (.list vs, rest)
          | Option.none => Option.none
      else if c = '{' then
        match dropHead '}' (skipWs cs') with
        | some rest => some (.dict [], rest)
        | Option.none =>
          match parseObjItems fuel cs' with
          | some (kvs, rest) => some (.dict (buildDict [] kvs), rest)
          | Option.none => Option.none
      else if c = '-' then
        match cs' with
        | d :: _ =>
          if d.isDigit then
            match parseDigits cs' with
            | some (n, rest) => some (.int (-(n : Int)), rest)
            | Option.none => Option.none
          else Option.none
        | [] => Option.none
      else if c.isDigit then
        match parseDigits (c :: cs') with
        | some (n, rest) => some (.int (n : Int), rest)
        | Option.none => Option.none
      else Option.none

/-- Parse the comma-separated items of a nonempty JSON array, including the
closing bracket. -/
def parseArrItems : Nat → List Char → Option (List PyVal × List Char)
  | 0, _ => Option.none
  | fuel + 1, cs =>
    match parseVal fuel cs with
    | some (v, r) =>
      match dropHead ',' (skipWs r) with
      | some r2 =>
        match parseArrItems fuel r2 with
        | some (vs, r3) => some (v :: vs, r3)
        | Option.none => Option.none
      | Option.none =>
        match dropHead ']' (skipWs r) with
        | some r2 => some ([v], r2)
        | Option.none => Option.none
    | Option.none => Option.none

/-- Parse the comma-separated pairs of a nonempty JSON object, including the
closing brace. -/
def parseObjItems : Nat → List Char → Option (List (String × PyVal) × List Char)
  | 0, _ => Option.none
  | fuel + 1, cs =>
    match dropHead '"' (skipWs cs) with
    | some r =>
      match parseStringAux (r.length + 1) [] r with
      | some (k, r2) =>
        match dropHead ':' (skipWs r2) with
        | some r3 =>
          match parseVal fuel r3 with
          | some (v, r4) =>
            match dropHead ',' (skipWs r4) with
            | some r5 =>
              match parseObjItems fuel r5 with
              | some (kvs, r6) => some ((k, v) :: kvs, r6)
              | Option.none => Option.none
            | Option.none =>
              match dropHead '}' (skipWs r4) with
              | some r5 => some ([(k, v)], r5)
              | Option.none => Option.none
          | Option.none => Option.none
        | Option.none => Option.none
      | Option.none => Option.none
    | Option.none => Option.none

end

mutual

/-- Canonical JSON encoding of a value (a model of json.dumps with compact
separators). -/
def dumpVal : PyVal → List Char
  | .none => "null".data
  | .bool true => "true".data
  | .bool false => "false".data
  | .int n => intChars n
  | .str s => '"' :: (escapeList s.data ++ ['"'])
  | .list [] => ['[', ']']
  | .list (x :: xs) => '[' :: (dumpVal x ++ dumpArrRest xs ++ [']'])
  | .dict [] => ['{', '}']
  | .dict (kv :: kvs) => '{' :: (dumpPair kv ++ dumpObjRest kvs ++ ['}'])

/-- Encoding of one key/value pair of an object. -/
def dumpPair : String × PyVal → List Char
  | (k, v) => '"' :: (escapeList k.data ++ ['"', ':'] ++ dumpVal v)

/-- Encoding of the remaining items of an array. -/
def dumpArrRest : List PyVal → List Char
  | [] => []
  | x :: xs => ',' :: (dumpVal x ++ dumpArrRest xs)

/-- Encoding of the remaining pairs of an object. -/
def dumpObjRest : List (String × PyVal) → List Char
  | [] => []
  | kv :: kvs => ',' :: (dumpPair kv ++ dumpObjRest kvs)

end

mutual

/-- Size of a value, used as a fuel bound for the parser. -/
def jsize : PyVal → Nat
  | .none => 1
  | .bool _ => 1
  | .int _ => 1
  | .str _ => 1
  | .list xs => 1 + jsizeList xs
  | .dict kvs => 1 + jsizeKvs kvs

/-- Size of a list of values. -/
def jsizeList : List PyVal → Nat
  | [] => 0
  | x :: xs => 1 + jsize x + jsizeList xs

/-- Size of a list of key/value pairs. -/
def jsizeKvs : List (String × PyVal) → Nat
  | [] => 0
  | kv :: kvs => 1 + jsize kv.2 + jsizeKvs kvs

end

/-- json.loads on a string: parse one value and require only whitespace to
remain. -/
def loads (s : String) : Option PyVal :=
  match parseVal (s.data.length + 1) s.data with
  | some (v, rest) => if skipWs rest = [] then some v else Option.none
  | Option.none => Option.none

/-- json.dumps on a value. -/
def dumps (v : PyVal) : String := ⟨dumpVal v⟩

mutual

/-- A value every object of which has distinct keys: exactly the values that
represent a Python structure, a Python dict being unable to hold a repeated
key. -/
def canonV : PyVal → Bool
  | .list xs => canonL xs
  | .dict kvs => keysNodupB kvs && canonKvs kvs
  | _ => true

/-- Canonicality of every item of a list. -/
def canonL : List PyVal → Bool
  | [] => true
  | x :: xs => canonV x && canonL xs

/-- Canonicality of every value of an association list. -/
def canonKvs : List (String × PyVal) → Bool
  | [] => true
  | kv :: kvs => canonV kv.2 && canonKvs kvs

end

/-- The span of the regex match from the first opening brace to the last
closing brace (the DOTALL greedy brace pattern of source line 133). -/
def extractBracesAux (cs : List Char) : Option (List Char) :=
  match cs.dropWhile (fun c => !(c == '{')) with
  | [] => Option.none
  | _ :: rest =>
    let r' := rest.reverse.dropWhile (fun c => !(c == '}'))
    if r'.isEmpty then Option.none
    else some ('{' :: r'.reverse)

/-- String form of the brace-span extraction. -/
def extractBraces (s : String) : Option String :=
  (extractBracesAux s.data).map (fun l => ⟨l⟩)

/-- Source lines 126 to 138: recover a structured plan result from the raw
LLM response; a dict is used as is, a string goes through json.loads, then
through the greedy brace-span regex retry; every failure falls back to an
empty dict.  This part never raises. -/
def parsePlanNoDecode (s : String) : PyVal :=
  match extractBraces s with
  | some sub =>
    match loads sub with
    | some v => v
    | Option.none => .dict []
  | Option.none => .dict []

/-- Source lines 126 to 138 continued: the dispatch over the raw response
shape. -/
def parsePlanResult (raw : PyVal) : PyVal :=
  match raw with
  | .dict kvs => .dict kvs
  | .str s =>
    match loads s with
    | some v => v
    | Option.none => parsePlanNoDecode s
  | _ => .dict []

/-- Source lines 140 to 146: read the plan and reasoning fields off the
parsed plan result and slice the reasoning for the log line.  The field
reads raise AttributeError when the parsed result is not a mapping, and the
slice raises TypeError when the reasoning is neither string nor list. -/
def planStage (raw : PyVal) : Except String PyVal := do
  let pr := parsePlanResult raw
  let plan ← pyGetDefault pr "plan" (.list [])
  let reasoning ← pyGetDefault pr "reasoning" (.str "")
  let _ ← pySlice reasoning 100
  pure plan

/-- Source line 174: the thinking field of a tool reaction, read directly
off the LLM response with a mapping-only get. -/
def reactionThinking (raw : PyVal) : Except String PyVal :=
  pyGetDefault raw "thinking" (.str "")

/-- str.strip() on a value: defined for strings only. -/
def pyStrip : PyVal → Except String String
  | .str s => .ok (strStrip s)
  | _ => .error "AttributeError"

/-- Source lines 181 to 189: extract the post text from the post LLM
response: a dict yields post_text or post or the empty string; a string is
JSON decoded (a decoded mapping yields its post_text or post or the raw
string, a decode failure yields the raw string); anything else yields the
empty string. -/
def extractPost (raw : PyVal) : Except String PyVal :=
  match raw with
  | .dict kvs =>
    .ok (pyOr ((kvs.lookup "post_text").getD .none) (pyOr ((kvs.lookup "post").getD .none) (.str "")))
  | .str s =>
    match loads s with
    | some (.dict kvs) =>
      .ok (pyOr ((kvs.lookup "post_text").getD .none) (pyOr ((kvs.lookup "post").getD .none) (.str s)))
    | some _ => .error "AttributeError"
    | Option.none => .ok (.str s)
  | _ => .ok (.str "")

/-- Extraction followed by the strip of source line 191. -/
def postParseStage (raw : PyVal) : Except String String := do
  let v ← extractPost raw
  pyStrip v

/-- Source lines 181 to 196: compose the final post text from the post LLM
response; the random fallback choice is modelled by an arbitrary index. -/
def compose (raw : PyVal) (idx : Nat) : Except String String := do
  let s ← postParseStage raw
  let t := strTake s 280
  if t = "" then pure (strTake (FALLBACK_TWEETS.getD (idx % FALLBACK_TWEETS.length) "") 280)
  else pure t

/-- Shape condition under which the reasoning slice of the log line cannot
raise: the reasoning field read off the mapping defaults to a string, or is
a string or a list. -/
def reasoningSliceable (kvs : List (String × PyVal)) : Bool :=
  match (kvs.lookup "reasoning").getD (.str "") with
  | .str _ => true
  | .list _ => true
  | _ => false

/-- Shape condition under which the whole plan parsing stage cannot raise:
whenever a mapping is obtained its reasoning is sliceable, and a string
response that JSON decodes directly must decode to a mapping. -/
def safePlanNoDecode (s : String) : Bool :=
  match extractBraces s with
  | some sub =>
    match loads sub with
    | some (.dict kvs) => reasoningSliceable kvs
    | some _ => false
    | Option.none => true
  | Option.none => true

/-- Shape condition continued: the dispatch over the raw response shape. -/
def safePlanResp : PyVal → Bool
  | .dict kvs => reasoningSliceable kvs
  | .str s =>
    match loads s with
    | some (.dict kvs) => reasoningSliceable kvs
    | some _ => false
    | Option.none => safePlanNoDecode s
  | _ => true

/-- Truthiness-aware success condition for the or-chain of the post text
extraction: the field that wins the chain must be a string. -/
def fieldOkB (a b : PyVal) : Bool :=
  if pyTruthy a then isStr a else if pyTruthy b then isStr b else true

/-- Shape condition under which the post text parsing stage cannot raise. -/
def safePost : PyVal → Bool
  | .dict kvs => fieldOkB ((kvs.lookup "post_text").getD .none) ((kvs.lookup "post").getD .none)
  | .str s =>
    match loads s with
    | some (.dict kvs) => fieldOkB ((kvs.lookup "post_text").getD .none) ((kvs.lookup "post").getD .none)
    | some _ => false
    | Option.none => true
  | _ => true

/-- Python equality between a value and a string literal. -/
def pyEqStr (v : PyVal) (s : String) : Bool :=
  match v with
  | .str t => t == s
  | _ => false

/-- The environment of one run: what each external collaborator returns,
indexed where a collaborator is called once per step.  An error value
models the call raising an exception with that text. -/
structure Env where
  tier : Option (Bool × String)
  recentPosts : Except String String
  planResponse : Except String PyVal
  webSearch : Nat → Except String PyVal
  generateImage : Except String String
  reaction : Nat → Except String PyVal
  postTextResponse : Except String PyVal
  uploadMedia : Except String String
  postTweet : Except String String
  savePost : Except String Unit
  fallbackIdx : Nat

/-- Observable side effects of a run: platform publish calls and storage
writes. -/
inductive Effect where
  | post (text : String) (mediaIds : Option (List String))
  | save (text : String) (tweetId : String) (hasImage : Bool)

/-- The structured result of a run (the duration field of the source is
time-dependent and not modelled). -/
inductive RunResult where
  | blocked (error : String)
  | failed (error : String)
  | ok (tweetId : String) (text : String) (toolsUsed : List PyVal) (hasImage : Bool)

/-- Truthiness of the image byte slot (Python bytes are falsy when empty). -/
def bytesTruthy : Option String → Bool
  | some b => b != ""
  | Option.none => false

/-- Source lines 154 to 174: execute one sanitized step, returning the tool
name recorded in tools_used and the updated image slot.  Only the image
tool call is guarded by a try/except; every other raise propagates. -/
def execStep (env : Env) (i : Nat) (step : PyVal) (img : Option String) :
    Except String (PyVal × Option String) := do
  let tool ← pyIndex step "tool"
  let params ← pyIndex step "params"
  let img2 ←
    if pyEqStr tool "web_search" then do
      let _query ← pyGetDefault params "query" (.str "")
      let result ← env.webSearch i
      let _content ← pyGetDefault result "content" (.str "")
      pure img
    else if pyEqStr tool "generate_image" then do
      let _prompt ← pyGetDefault params "prompt" (.str "")
      pure (match env.generateImage with
            | .ok b => some b
            | .error _ => Option.none)
    else pure img
  let reactionV ← env.reaction i
  let _thinking ← reactionThinking reactionV
  pure (tool, img2)

/-- The tool execution loop over the sanitized plan. -/
def execSteps (env : Env) : List PyVal → Nat → List PyVal → Option String →
    Except String (List PyVal × Option String)
  | [], _, tools, img => .ok (tools, img)
  | step :: rest, i, tools, img => do
    let r ← execStep env i step img
    execSteps env rest (i + 1) (tools ++ [r.1]) r.2

/-- Source lines 199 to 206: when the image slot is truthy, upload it; on
upload failure clear the slot and keep no media id; returns the media ids
for the post call and the final image slot. -/
def uploadStage (env : Env) (imageBytes : Option String) :
    Option (List String) × Option String :=
  if bytesTruthy imageBytes then
    match env.uploadMedia with
    | .ok mid => (some [mid], imageBytes)
    | .error _ => (Option.none, Option.none)
  else (Option.none, imageBytes)

/-- The body of run() between the gate check and the return (source lines
109 to 221), with the try block made explicit: an error carries the
exception text together with the effects already performed. -/
def runBody (env : Env) : Except (String × List Effect) (RunResult × List Effect) :=
  match env.recentPosts with
  | .error e => .error (e, [])
  | .ok _prev =>
    match env.planResponse with
    | .error e => .error (e, [])
    | .ok rawResp =>
      match planStage rawResp with
      | .error e => .error (e, [])
      | .ok rawPlan =>
        match execSteps env (sanitize_plan rawPlan) 0 [] Option.none with
        | .error e => .error (e, [])
        | .ok (toolsUsed, imageBytes) =>
          match env.postTextResponse with
          | .error e => .error (e, [])
          | .ok praw =>
            match compose praw env.fallbackIdx with
            | .error e => .error (e, [])
            | .ok postText =>
              match uploadStage env imageBytes with
              | (mediaIds, imageBytes2) =>
                match env.postTweet with
                | .error e => .error (e, [])
                | .ok tweetId =>
                  match env.savePost with
                  | .error e => .error (e, [Effect.post postText mediaIds])
                  | .ok _ =>
                    .ok (RunResult.ok tweetId postText toolsUsed imageBytes2.isSome,
                      [Effect.post postText mediaIds, Effect.save postText tweetId imageBytes2.isSome])

/-- AutoPostService.run (source lines 93 to 227): the gate check, the body,
and the top-level exception handler, which returns a failure result with
the exception text and adds no further effect. -/
def runModel (env : Env) : RunResult × List Effect :=
  match env.tier with
  | some (false, reason) => (.blocked ("posting_blocked: " ++ reason), [])
  | _ =>
    match runBody env with
    | .ok rt => rt
    | .error (e, tr) => (.failed e, tr)

/-- An environment in which the gate allows and the plan LLM call raises;
everything downstream would succeed. -/
def envPlanRaises : Env :=
  ⟨some (true, ""), .ok "", .error "LLM exploded",
   fun _ => .ok (.dict [("content", .str "r")]), .ok "IMG",
   fun _ => .ok (.dict [("thinking", .str "hm")]),
   .ok (.dict [("post_text", .str "yo")]), .ok "m1", .ok "tw1", .ok (), 0⟩

/-- An environment blocked by the gate with a daily limit reason. -/
def envBlockedDaily : Env :=
  ⟨some (false, "daily_limit_reached"), .ok "", .ok (.dict []),
   fun _ => .ok (.dict []), .ok "I", fun _ => .ok (.dict []),
   .ok (.dict []), .ok "m", .ok "t", .ok (), 0⟩

/-- An environment where the gate allows but the planner raises, ending the
run with no post. -/
def envFailNoPost : Env :=
  ⟨some (true, ""), .ok "", .error "planner down",
   fun _ => .ok (.dict []), .ok "I", fun _ => .ok (.dict []),
   .ok (.dict []), .ok "m", .ok "t", .ok (), 0⟩

/-- A fully successful environment: one image step planned, image generated
and uploaded, post and save succeed. -/
def envHappy : Env :=
  ⟨Option.none, .ok "",
   .ok (.dict [("plan", .list [.dict [("tool", .str "generate_image"),
      ("params", .dict [("prompt", .str "sunrise")])]]), ("reasoning", .str "pic")]),
   fun _ => .ok (.dict [("content", .str "x")]), .ok "IMGBYTES",
   fun _ => .ok (.dict [("thinking", .str "ok")]),
   .ok (.dict [("post_text", .str "We sail at dawn!")]),
   .ok "media9", .ok "tweet7", .ok (), 2⟩

/-- An environment whose image tool raises while everything else succeeds. -/
def envImgFails : Env :=
  ⟨Option.none, .ok "",
   .ok (.dict [("plan", .list [.dict [("tool", .str "generate_image"),
      ("params", .dict [("prompt", .str "sea")])]]), ("reasoning", .str "pic")]),
   fun _ => .ok (.dict [("content", .str "x")]), .error "img tool crashed",
   fun _ => .ok (.dict [("thinking", .str "ok")]),
   .ok (.dict [("post_text", .str "Storm ahead!")]),
   .ok "mX", .ok "tw9", .ok (), 1⟩

/-- A list that does not start with a decimal digit (so a digit run ends
exactly at its boundary). -/
def noDigitHead : List Char → Prop
  | [] => True
  | c :: _ => c.isDigit = false

theorem sanitizeLoop_spec (steps : List PyVal) : ∀ (hi : Bool) (acc : List (String × PyVal)),
    ∃ t, sanitizeLoop steps hi acc = acc ++ t ∧
      (∀ p ∈ t, p.1 ∈ TOOLS) ∧
      (t.filter isImagePair).length ≤ (if hi then 0 else 1) ∧
      (acc.length ≤ 2 → (acc ++ t).length ≤ 3) := by
  induction steps with
  | nil =>
    intro hi acc
    refine ⟨[], by simp [sanitizeLoop], by simp, by simp, ?_⟩
    intro h
    simp only [List.append_nil]
    omega
  | cons step rest ih =>
    intro hi acc
    cases step with
    | dict kvs =>
      cases htool : (kvs.lookup "tool").getD PyVal.none with
      | str t =>
        by_cases hreg : t ∈ TOOLS
        · by_cases himg : (t == "generate_image" && hi) = true
          · obtain ⟨u, hu, hall, hcnt, hlen⟩ := ih hi acc
            refine ⟨u, ?_, hall, hcnt, hlen⟩
            simp only [sanitizeLoop, htool, if_pos hreg, if_pos himg]
            exact hu
          · set x : String × PyVal := (t, (kvs.lookup "params").getD (.dict [])) with hx
            by_cases hbrk : 3 ≤ (acc ++ [x]).length
            · refine ⟨[x], ?_, ?_, ?_, ?_⟩
              · simp only [sanitizeLoop, htool, if_pos hreg, if_neg himg, if_pos hbrk]
              · intro p hp; simp at hp; subst hp; exact hreg
              · cases hb : (t == "generate_image") with
                | true =>
                  cases hi with
                  | true => simp [hb] at himg
                  | false => simp [List.filter_cons, isImagePair, hx, hb]
                | false => cases hi <;> simp [List.filter_cons, isImagePair, hx, hb]
              · intro h
                simp only [List.length_append, List.length_cons, List.length_nil]
                omega
            · obtain ⟨u, hu, hall, hcnt, hlen⟩ := ih (hi || t == "generate_image") (acc ++ [x])
              refine ⟨x :: u, ?_, ?_, ?_, ?_⟩
              · simp only [sanitizeLoop, htool, if_pos hreg, if_neg himg, if_neg hbrk]
                rw [hu]
                simp
              · intro p hp
                rcases List.mem_cons.mp hp with h | h
                · subst h; exact hreg
                · exact hall p h
              · cases hb : (t == "generate_image") with
                | true =>
                  cases hi with
                  | true => simp [hb] at himg
                  | false =>
                    simp [hb] at hcnt
                    simp [List.filter_cons, isImagePair, hx, hb, hcnt]
                    intro a b hab
                    have hf := hcnt a b hab
                    simpa [isImagePair] using hf
                | false =>
                  have hxi : isImagePair x = false := by simp [isImagePair, hx, hb]
                  simp only [List.filter_cons, hxi, Bool.false_eq_true, if_false]
                  simp only [hb, Bool.or_false] at hcnt
                  exact hcnt
              · intro h
                have h2 : (acc ++ [x]).length ≤ 2 := by
                  simp only [List.length_append, List.length_cons, List.length_nil] at hbrk ⊢
                  omega
                have h3 := hlen h2
                simp only [List.length_append, List.length_cons, List.length_nil] at h3 ⊢
                omega
        · obtain ⟨u, hu, hall, hcnt, hlen⟩ := ih hi acc
          refine ⟨u, ?_, hall, hcnt, hlen⟩
          simp only [sanitizeLoop, htool, if_neg hreg]
          exact hu
      | none =>
        obtain ⟨u, hu, hall, hcnt, hlen⟩ := ih hi acc
        exact ⟨u, by simp only [sanitizeLoop, htool]; exact hu, hall, hcnt, hlen⟩
      | bool b =>
        obtain ⟨u, hu, hall, hcnt, hlen⟩ := ih hi acc
        exact ⟨u, by simp only [sanitizeLoop, htool]; exact hu, hall, hcnt, hlen⟩
      | int n =>
        obtain ⟨u, hu, hall, hcnt, hlen⟩ := ih hi acc
        exact ⟨u, by simp only [sanitizeLoop, htool]; exact hu, hall, hcnt, hlen⟩
      | list xs =>
        obtain ⟨u, hu, hall, hcnt, hlen⟩ := ih hi acc
        exact ⟨u, by simp only [sanitizeLoop, htool]; exact hu, hall, hcnt, hlen⟩
      | dict kvs2 =>
        obtain ⟨u, hu, hall, hcnt, hlen⟩ := ih hi acc
        exact ⟨u, by simp only [sanitizeLoop, htool]; exact hu, hall, hcnt, hlen⟩
    | none =>
      obtain ⟨u, hu, hall, hcnt, hlen⟩ := ih hi acc
      exact ⟨u, by simp only [sanitizeLoop]; exact hu, hall, hcnt, hlen⟩
    | bool b =>
      obtain ⟨u, hu, hall, hcnt, hlen⟩ := ih hi acc
      exact ⟨u, by simp only [sanitizeLoop]; exact hu, hall, hcnt, hlen⟩
    | int n =>
      obtain ⟨u, hu, hall, hcnt, hlen⟩ := ih hi acc
      exact ⟨u, by simp only [sanitizeLoop]; exact hu, hall, hcnt, hlen⟩
    | str s =>
      obtain ⟨u, hu, hall, hcnt, hlen⟩ := ih hi acc
      exact ⟨u, by simp only [sanitizeLoop]; exact hu, hall, hcnt, hlen⟩
    | list xs =>
      obtain ⟨u, hu, hall, hcnt, hlen⟩ := ih hi acc
      exact ⟨u, by simp only [sanitizeLoop]; exact hu, hall, hcnt, hlen⟩

theorem mkStep_lookup_tool (p : String × PyVal) :
    ([("tool", PyVal.str p.1), ("params", p.2)].lookup "tool") = some (PyVal.str p.1) := rfl

theorem mkStep_lookup_params (p : String × PyVal) :
    ([("tool", PyVal.str p.1), ("params", p.2)].lookup "params") = some p.2 := rfl

theorem sanitizeLoop_clean (l : List (String × PyVal)) : ∀ (hi : Bool) (acc : List (String × PyVal)),
    (∀ p ∈ l, p.1 ∈ TOOLS) →
    ((l.filter isImagePair).length ≤ if hi then 0 else 1) →
    acc.length + l.length ≤ 3 →
    sanitizeLoop (l.map mkStep) hi acc = acc ++ l := by
  induction l with
  | nil => intro hi acc _ _ _; simp [sanitizeLoop]
  | cons p rest ih =>
    intro hi acc hall hcnt hlen
    have hreg : p.1 ∈ TOOLS := hall p (List.mem_cons_self _ _)
    have heq : sanitizeLoop (mkStep p :: rest.map mkStep) hi acc =
        (if (p.1 == "generate_image" && hi) = true then sanitizeLoop (rest.map mkStep) hi acc
         else
           (if 3 ≤ (acc ++ [p]).length then acc ++ [p]
            else sanitizeLoop (rest.map mkStep) (hi || p.1 == "generate_image") (acc ++ [p]))) := by
      simp only [sanitizeLoop, mkStep, mkStep_lookup_tool, mkStep_lookup_params, Option.getD_some,
        if_pos hreg]
    rw [List.map_cons, heq]
    cases hb : (p.1 == "generate_image") with
    | true =>
      have himgp : isImagePair p = true := by simpa [isImagePair] using hb
      have hi0 : hi = false := by
        cases hi with
        | false => rfl
        | true =>
          exfalso
          simp [List.filter_cons, himgp] at hcnt
      subst hi0
      rw [if_neg (by simp)]
      by_cases hbrk : 3 ≤ (acc ++ [p]).length
      · have hrest : rest = [] := by
          cases rest with
          | nil => rfl
          | cons q qs =>
            exfalso
            simp only [List.length_append, List.length_cons, List.length_nil] at hbrk hlen
            omega
        subst hrest
        rw [if_pos hbrk]
      · rw [if_neg hbrk]
        have hcnt0 : (rest.filter isImagePair).length = 0 := by
          have h1 := hcnt
          simp only [List.filter_cons, himgp, if_true, List.length_cons] at h1
          simp only [show ((false = true) = False) from by simp, if_false] at h1
          omega
        have hrec := ih true (acc ++ [p])
          (fun q hq => hall q (List.mem_cons_of_mem _ hq))
          (by simp [hcnt0])
          (by simp only [List.length_append, List.length_cons, List.length_nil] at hlen ⊢; omega)
        simp only [Bool.false_or]
        rw [hrec]
        simp
    | false =>
      have himgp : isImagePair p = false := by simpa [isImagePair] using hb
      rw [if_neg (by simp)]
      by_cases hbrk : 3 ≤ (acc ++ [p]).length
      · have hrest : rest = [] := by
          cases rest with
          | nil => rfl
          | cons q qs =>
            exfalso
            simp only [List.length_append, List.length_cons, List.length_nil] at hbrk hlen
            omega
        subst hrest
        rw [if_pos hbrk]
      · rw [if_neg hbrk]
        have hcnt1 : (rest.filter isImagePair).length ≤ if hi = true then 0 else 1 := by
          simpa [List.filter_cons, himgp] using hcnt
        have hrec := ih hi (acc ++ [p])
          (fun q hq => hall q (List.mem_cons_of_mem _ hq))
          hcnt1
          (by simp only [List.length_append, List.length_cons, List.length_nil] at hlen ⊢; omega)
        simp only [Bool.or_false]
        rw [hrec]
        simp

theorem filter_partition_length (l : List (String × PyVal)) :
    (l.filter isImagePair).length + (l.filter (fun p => !isImagePair p)).length = l.length := by
  induction l with
  | nil => rfl
  | cons p rest ih =>
    cases hp : isImagePair p with
    | true => simp [List.filter_cons, hp]; omega
    | false => simp [List.filter_cons, hp]; omega

theorem sanitize_plan_cases (plan : PyVal) :
    ∃ fp : List (String × PyVal),
      sanitize_plan plan = fp.map mkStep ∧
      (∀ p ∈ fp, p.1 ∈ TOOLS) ∧
      fp.length ≤ 3 ∧
      ((fp.filter isImagePair).length ≤ 1) ∧
      ((fp.filter (fun p => !isImagePair p)) ++ (fp.filter isImagePair).take 1 = fp) ∧
      (∀ i (h : i < fp.length), isImagePair (fp.get ⟨i, h⟩) = true → i + 1 = fp.length) := by
  cases plan with
  | list steps =>
    obtain ⟨t, ht, hall, hcnt, hlen⟩ := sanitizeLoop_spec steps false []
    have hk : sanitizeLoop steps false [] = t := by simpa using ht
    have hlen3 : t.length ≤ 3 := by simpa using hlen (by simp)
    have hcnt1 : (t.filter isImagePair).length ≤ 1 := by simpa using hcnt
    set nI := t.filter (fun p => !isImagePair p) with hnI
    set im1 := (t.filter isImagePair).take 1 with him1
    have hA : nI.filter isImagePair = [] := by
      rw [List.filter_eq_nil_iff]
      intro p hp
      have := List.of_mem_filter hp
      simpa using this
    have hB : im1.filter isImagePair = im1 := by
      rw [List.filter_eq_self]
      intro p hp
      exact List.of_mem_filter (List.take_subset _ _ hp)
    have hC : nI.filter (fun p => !isImagePair p) = nI := by
      rw [List.filter_eq_self]
      intro p hp
      rw [hnI] at hp
      have h2 := (List.mem_filter.mp hp).2
      simpa using h2
    have hD : im1.filter (fun p => !isImagePair p) = [] := by
      rw [List.filter_eq_nil_iff]
      intro p hp
      rw [him1] at hp
      have := List.of_mem_filter (List.take_subset _ _ hp)
      simp [this]
    have him1len : im1.length ≤ 1 := by
      rw [him1]
      have := List.length_take 1 (t.filter isImagePair)
      omega
    have hfilterImg : (nI ++ im1).filter isImagePair = im1 := by
      rw [List.filter_append, hA, hB, List.nil_append]
    refine ⟨nI ++ im1, ?_, ?_, ?_, ?_, ?_, ?_⟩
    · simp only [sanitize_plan, hk]
    · intro p hp
      rcases List.mem_append.mp hp with h | h
      · exact hall p (List.mem_of_mem_filter h)
      · exact hall p (List.mem_of_mem_filter (List.take_subset _ _ h))
    · have h1 := filter_partition_length t
      rw [← hnI] at h1
      have h2 : im1.length ≤ (t.filter isImagePair).length := by
        rw [him1]
        exact List.length_take_le' _ _
      simp only [List.length_append]
      omega
    · rw [hfilterImg]; exact him1len
    · rw [List.filter_append, hC, hD, List.append_nil, hfilterImg]
      have : im1.take 1 = im1 := by
        rw [him1, List.take_take]
        simp
      rw [this]
    · intro i h himg
      have hlen_eq : (nI ++ im1).length = nI.length + im1.length := List.length_append _ _
      by_cases hi : i < nI.length
      · exfalso
        have hget : (nI ++ im1).get ⟨i, h⟩ = nI.get ⟨i, hi⟩ := by
          apply List.get_append
        rw [hget] at himg
        have hmem : nI.get ⟨i, hi⟩ ∈ nI := List.get_mem _ _ _
        have := List.of_mem_filter hmem
        rw [himg] at this
        simp at this
      · push_neg at hi
        omega
  | none => exact ⟨[], rfl, by simp, by simp, by simp, by simp, by simp⟩
  | bool b => exact ⟨[], rfl, by simp, by simp, by simp, by simp, by simp⟩
  | int n => exact ⟨[], rfl, by simp, by simp, by simp, by simp, by simp⟩
  | str s => exact ⟨[], rfl, by simp, by simp, by simp, by simp, by simp⟩
  | dict kvs => exact ⟨[], rfl, by simp, by simp, by simp, by simp, by simp⟩

/-- C5 amended: every sanitized step is a two-key dict whose tool field is a
registered tool name and whose params field is the raw params value of the
source entry (an absent params key defaults to an empty dict); the params
lookups of the tool executor succeed whenever that params value is a
mapping.  Sanitization does not force params to be a mapping. -/
theorem c5_sanitized_step_shape (plan : PyVal) (s : PyVal) (hs : s ∈ sanitize_plan plan) :
    ∃ t prm, s = mkStep (t, prm) ∧ t ∈ TOOLS ∧
      pyIndex s "tool" = .ok (.str t) ∧ pyIndex s "params" = .ok prm ∧
      (∀ kvs k d, prm = .dict kvs → ∃ v, pyGetDefault prm k d = .ok v) := by
  obtain ⟨fp, hout, hall, _, _, _, _⟩ := sanitize_plan_cases plan
  rw [hout] at hs
  obtain ⟨q, hq, rfl⟩ := List.mem_map.mp hs
  refine ⟨q.1, q.2, by simp [mkStep], hall q hq, rfl, rfl, ?_⟩
  intro kvs k d hd
  rw [hd]
  exact ⟨_, rfl⟩

theorem c5_sanitized_step_shape_witness :
    ∃ t prm,
      PyVal.dict [("tool", PyVal.str "web_search"), ("params", PyVal.dict [("query", PyVal.str "q")])] = mkStep (t, prm) ∧ t ∈ TOOLS ∧
      pyIndex (PyVal.dict [("tool", PyVal.str "web_search"), ("params", PyVal.dict [("query", PyVal.str "q")])]) "tool" = .ok (.str t) ∧
      pyIndex (PyVal.dict [("tool", PyVal.str "web_search"), ("params", PyVal.dict [("query", PyVal.str "q")])]) "params" = .ok prm ∧
      (∀ kvs k d, prm = .dict kvs → ∃ v, pyGetDefault prm k d = .ok v) :=
  c5_sanitized_step_shape
    (PyVal.list [PyVal.dict [("tool", PyVal.str "web_search"), ("params", PyVal.dict [("query", PyVal.str "q")])]])
    (PyVal.dict [("tool", PyVal.str "web_search"), ("params", PyVal.dict [("query", PyVal.str "q")])])
    (by rw [show sanitize_plan (PyVal.list [PyVal.dict [("tool", PyVal.str "web_search"), ("params", PyVal.dict [("query", PyVal.str "q")])]]) = [PyVal.dict [("tool", PyVal.str "web_search"), ("params", PyVal.dict [("query", PyVal.str "q")])]] from rfl]; exact List.mem_singleton_self _)

/-- C5 counterexample: a step whose params is a string survives sanitization
unchanged, and the executor params lookup on it fails with AttributeError,
so sanitized steps do not always have a mapping in their params field. -/
theorem c5_counterexample :
    sanitize_plan (PyVal.list [PyVal.dict [("tool", PyVal.str "web_search"), ("params", PyVal.str "oops")]]) =
      [PyVal.dict [("tool", PyVal.str "web_search"), ("params", PyVal.str "oops")]] ∧
    pyGetDefault (PyVal.str "oops") "query" (PyVal.str "") = .error "AttributeError" :=
  ⟨rfl, rfl⟩

/-- C8: sanitizing an already-sanitized plan yields the same plan. -/
theorem c8_sanitize_plan_idempotent (plan : PyVal) :
    sanitize_plan (.list (sanitize_plan plan)) = sanitize_plan plan := by
  obtain ⟨fp, hout, hall, hlen, hcnt, hrec, _⟩ := sanitize_plan_cases plan
  rw [hout]
  have hloop := sanitizeLoop_clean fp false [] hall (by simpa using hcnt) (by simpa using hlen)
  simp only [sanitize_plan]
  rw [hloop, List.nil_append, hrec]

theorem pyStrip_isOk_of_isStr (v : PyVal) (h : isStr v = true) : (pyStrip v).isOk = true := by
  cases v <;> simp [isStr] at h ⊢ <;> rfl

theorem parsePlanNoDecode_eq (su sub : String) (he : extractBraces su = some sub) :
    parsePlanNoDecode su =
      (match loads sub with | some v => v | Option.none => PyVal.dict []) := by
  unfold parsePlanNoDecode
  rw [he]

theorem parsePlanNoDecode_none (su : String) (he : extractBraces su = Option.none) :
    parsePlanNoDecode su = .dict [] := by
  unfold parsePlanNoDecode
  rw [he]

theorem safePlanNoDecode_eq (su sub : String) (he : extractBraces su = some sub) :
    safePlanNoDecode su =
      (match loads sub with
       | some (.dict kvs) => reasoningSliceable kvs
       | some _ => false
       | Option.none => true) := by
  unfold safePlanNoDecode
  rw [he]

theorem parsePlanNoDecode_shape (su : String) :
    parsePlanNoDecode su = .dict [] ∨ ∃ sub v, extractBraces su = some sub ∧ loads sub = some v ∧ parsePlanNoDecode su = v := by
  cases he : extractBraces su with
  | some sub =>
    rw [parsePlanNoDecode_eq su sub he]
    cases hl2 : loads sub with
    | some v => exact Or.inr ⟨sub, v, rfl, hl2, rfl⟩
    | none => exact Or.inl rfl
  | none => exact Or.inl (parsePlanNoDecode_none su he)

theorem planStage_safe (raw : PyVal) (h : safePlanResp raw = true) : (planStage raw).isOk = true := by
  have hshape : ∃ kvs, parsePlanResult raw = .dict kvs ∧ reasoningSliceable kvs = true := by
    cases raw with
    | dict kvs => exact ⟨kvs, rfl, by simpa [safePlanResp] using h⟩
    | str s =>
      simp only [safePlanResp] at h
      simp only [parsePlanResult]
      cases hl : loads s with
      | some v =>
        rw [hl] at h
        cases v with
        | dict kvs => exact ⟨kvs, rfl, h⟩
        | none => simp at h
        | bool b => simp at h
        | int n => simp at h
        | str s2 => simp at h
        | list xs => simp at h
      | none =>
        rw [hl] at h
        have h2 : safePlanNoDecode s = true := h
        show ∃ kvs, parsePlanNoDecode s = .dict kvs ∧ reasoningSliceable kvs = true
        rcases parsePlanNoDecode_shape s with hnd | ⟨sub, v, he, hl2, hnd⟩
        · exact ⟨[], hnd, rfl⟩
        · rw [safePlanNoDecode_eq s sub he, hl2] at h2
          cases v with
          | dict kvs => exact ⟨kvs, hnd, h2⟩
          | none => simp at h2
          | bool b => simp at h2
          | int n => simp at h2
          | str s2 => simp at h2
          | list xs => simp at h2
    | none => exact ⟨[], rfl, rfl⟩
    | bool b => exact ⟨[], rfl, rfl⟩
    | int n => exact ⟨[], rfl, rfl⟩
    | list xs => exact ⟨[], rfl, rfl⟩
  obtain ⟨kvs, hpr, hrs⟩ := hshape
  show (planStage raw).isOk = true
  unfold planStage
  rw [hpr]
  simp only [pyGetDefault, Bind.bind, Except.bind]
  cases hr : (kvs.lookup "reasoning").getD (.str "") with
  | str s2 => rfl
  | list xs => rfl
  | none => simp [reasoningSliceable, hr] at hrs
  | bool b => simp [reasoningSliceable, hr] at hrs
  | int n => simp [reasoningSliceable, hr] at hrs
  | dict kvs2 => simp [reasoningSliceable, hr] at hrs

theorem extract_chain_isStr (a b : PyVal) (c : String) (hok : fieldOkB a b = true) :
    isStr (pyOr a (pyOr b (.str c))) = true := by
  unfold fieldOkB at hok
  unfold pyOr
  by_cases ha : pyTruthy a = true
  · rw [if_pos ha]
    rw [if_pos ha] at hok
    exact hok
  · have ha' : pyTruthy a = false := by simpa using ha
    rw [ha'] at hok ⊢
    simp only [Bool.false_eq_true, if_false]
    by_cases hb : pyTruthy b = true
    · rw [if_pos hb]
      rw [if_pos hb] at hok
      exact hok
    · have hb' : pyTruthy b = false := by simpa using hb
      rw [hb'] at hok ⊢
      simp [isStr]

theorem postParse_safe (raw : PyVal) (h : safePost raw = true) : (postParseStage raw).isOk = true := by
  unfold postParseStage
  cases raw with
  | dict kvs =>
    simp only [safePost] at h
    simp only [extractPost, Bind.bind, Except.bind]
    exact pyStrip_isOk_of_isStr _ (extract_chain_isStr _ _ _ h)
  | str s =>
    simp only [safePost] at h
    simp only [extractPost]
    cases hl : loads s with
    | some v =>
      rw [hl] at h
      cases v with
      | dict kvs =>
        simp only [Bind.bind, Except.bind]
        exact pyStrip_isOk_of_isStr _ (extract_chain_isStr _ _ _ h)
      | none => simp at h
      | bool b => simp at h
      | int n => simp at h
      | str s2 => simp at h
      | list xs => simp at h
    | none =>
      simp only [Bind.bind, Except.bind]
      rfl
  | none => rfl
  | bool b => rfl
  | int n => rfl
  | list xs => rfl

/-- C3 (amended): plan parsing and post text parsing never raise on shape
safe responses (any mapping with sliceable reasoning, any string failing
JSON decode, any string decoding to such a mapping, any non string non
mapping value), degrading to default values instead; but the tool reaction
response is used as a mapping directly, so every string tool reaction
response raises AttributeError rather than degrading. -/
theorem c3_parsing_contract :
    (∀ raw, safePlanResp raw = true → (planStage raw).isOk = true) ∧
    (∀ raw, safePost raw = true → (postParseStage raw).isOk = true) ∧
    (∀ s, reactionThinking (PyVal.str s) = .error "AttributeError") :=
  ⟨planStage_safe, postParse_safe, fun _ => rfl⟩

/-- C3 counterexample: a string tool reaction response raises
AttributeError at the thinking read, and a plan response that JSON decodes
to a list raises AttributeError at the plan read, so parsing does not
tolerate every response shape without raising. -/
theorem c3_counterexample :
    reactionThinking (PyVal.str "sounds good, captain") = Except.error "AttributeError" ∧
    planStage (PyVal.str "[1, 2]") = Except.error "AttributeError" := ⟨rfl, rfl⟩

theorem c3_parsing_contract_witness :
    (planStage (PyVal.str "total garbage")).isOk = true ∧
    (postParseStage (PyVal.str "total garbage")).isOk = true ∧
    reactionThinking (PyVal.str "aye") = .error "AttributeError" :=
  ⟨c3_parsing_contract.1 _ (by rfl), c3_parsing_contract.2.1 _ (by rfl),
   c3_parsing_contract.2.2 "aye"⟩

theorem strTake_length_le (s : String) (n : Nat) : (strTake s n).length ≤ n := by
  have : (strTake s n).length = (s.data.take n).length := rfl
  rw [this, List.length_take]
  omega

theorem strTake_ne_empty (s : String) (n : Nat) (hs : s ≠ "") (hn : 0 < n) :
    strTake s n ≠ "" := by
  intro hcontra
  apply hs
  have hd : s.data.take n = [] := congrArg String.data hcontra
  rcases List.take_eq_nil_iff.mp hd with h | h
  · exact absurd h (by omega)
  · exact congrArg String.mk h

/-- C4: whenever composition completes, the final post text is nonempty and
at most 280 characters, and it is either the truncation of the stripped
extracted text or the truncation of a member of the fixed fallback list. -/
theorem c4_compose_bounds (raw : PyVal) (idx : Nat) (t : String)
    (h : compose raw idx = .ok t) :
    t ≠ "" ∧ t.length ≤ 280 ∧
      ((∃ f ∈ FALLBACK_TWEETS, t = strTake f 280) ∨
        (∃ s, postParseStage raw = .ok s ∧ t = strTake s 280)) := by
  unfold compose at h
  cases hp : postParseStage raw with
  | error e =>
    rw [hp] at h
    simp [Bind.bind, Except.bind] at h
  | ok s =>
    rw [hp] at h
    simp only [Bind.bind, Except.bind] at h
    by_cases hemp : strTake s 280 = ""
    · rw [if_pos hemp] at h
      simp only [pure, Except.pure, Except.ok.injEq] at h
      have hlt : idx % FALLBACK_TWEETS.length < FALLBACK_TWEETS.length := by
        apply Nat.mod_lt
        decide
      have hmem : FALLBACK_TWEETS.getD (idx % FALLBACK_TWEETS.length) "" ∈ FALLBACK_TWEETS := by
        rw [List.getD_eq_getElem _ _ hlt]
        exact List.getElem_mem _
      have hne : FALLBACK_TWEETS.getD (idx % FALLBACK_TWEETS.length) "" ≠ "" := by
        have h7 : idx % FALLBACK_TWEETS.length < 7 := hlt
        interval_cases h : idx % FALLBACK_TWEETS.length <;> decide
      refine ⟨?_, ?_, Or.inl ⟨_, hmem, h.symm⟩⟩
      · rw [← h]
        exact strTake_ne_empty _ _ hne (by omega)
      · rw [← h]
        exact strTake_length_le _ _
    · rw [if_neg hemp] at h
      simp only [pure, Except.pure, Except.ok.injEq] at h
      refine ⟨by rw [← h]; exact hemp, by rw [← h]; exact strTake_length_le _ _,
        Or.inr ⟨s, rfl, h.symm⟩⟩

theorem c4_compose_bounds_witness :
    ("Yo ho, set sail!" : String) ≠ "" ∧ ("Yo ho, set sail!" : String).length ≤ 280 ∧
      ((∃ f ∈ FALLBACK_TWEETS, ("Yo ho, set sail!" : String) = strTake f 280) ∨
        (∃ s, postParseStage (PyVal.dict [("post_text", PyVal.str "  Yo ho, set sail!  ")]) = .ok s ∧
          ("Yo ho, set sail!" : String) = strTake s 280)) :=
  c4_compose_bounds (PyVal.dict [("post_text", PyVal.str "  Yo ho, set sail!  ")]) 3
    "Yo ho, set sail!" (by rfl)

/-- C1 counterexample: when a step after the gate raises, the run returns a
plain failure result with the exception text and performs no publish and no
storage write at all, so no fallback message is posted and the result has
no fallback_posted field. -/
theorem c1_counterexample :
    runModel envPlanRaises = (RunResult.failed "LLM exploded", []) := rfl

theorem runBody_error_shape (env : Env) (m : String) (tr : List Effect)
    (hfail : runBody env = .error (m, tr)) :
    (∀ t tid hi, Effect.save t tid hi ∉ tr) ∧
    (tr = [] ∨ (env.savePost = .error m ∧ ∃ praw t mids,
      env.postTextResponse = .ok praw ∧ compose praw env.fallbackIdx = .ok t ∧
      tr = [Effect.post t mids])) := by
  unfold runBody at hfail
  repeat' split at hfail
  all_goals try exact Except.noConfusion hfail
  all_goals injection hfail with h1
  all_goals injection h1 with ha hb
  all_goals subst ha
  all_goals subst hb
  all_goals try exact ⟨fun _ _ _ hmem => (nomatch hmem), Or.inl rfl⟩
  constructor
  · intro t tid hi hmem
    simp at hmem
  · right
    constructor
    · assumption
    · exact ⟨_, _, _, (by assumption), (by assumption), rfl⟩

/-- C1 (amended): whenever the gate allows and any post-gate step raises,
the top-level handler returns success false with the exception text and
performs nothing further: the failure's effect trace contains no storage
write, and contains a publish only when save_post was the raising step, in
which case it is exactly the single main composed tweet that was already
posted before the exception; the handler never publishes a fallback message
and the result carries no fallback_posted information. -/
theorem c1_failure_returns_without_fallback (env : Env) (m : String) (tr : List Effect)
    (hgate : ∀ p, env.tier = some p → p.1 = true)
    (hfail : runBody env = .error (m, tr)) :
    runModel env = (RunResult.failed m, tr) ∧
    (∀ t tid hi, Effect.save t tid hi ∉ tr) ∧
    (tr = [] ∨ (env.savePost = .error m ∧ ∃ praw t mids,
      env.postTextResponse = .ok praw ∧ compose praw env.fallbackIdx = .ok t ∧
      tr = [Effect.post t mids])) := by
  have hshape := runBody_error_shape env m tr hfail
  refine ⟨?_, hshape.1, hshape.2⟩
  cases ht : env.tier with
  | none => simp only [runModel, ht, hfail]
  | some p =>
    obtain ⟨b, r⟩ := p
    have hbt : b = true := hgate (b, r) ht
    subst hbt
    simp only [runModel, ht, hfail]

theorem c1_failure_returns_without_fallback_witness :
    runModel envPlanRaises = (RunResult.failed "LLM exploded", []) ∧
    (∀ t tid hi, Effect.save t tid hi ∉ ([] : List Effect)) ∧
    (([] : List Effect) = [] ∨ (envPlanRaises.savePost = .error "LLM exploded" ∧
      ∃ praw t mids, envPlanRaises.postTextResponse = .ok praw ∧
        compose praw envPlanRaises.fallbackIdx = .ok t ∧
        ([] : List Effect) = [Effect.post t mids])) :=
  c1_failure_returns_without_fallback envPlanRaises "LLM exploded" []
    (fun p hp => by cases hp; rfl) rfl

/-- C6 counterexample: the blocked result's error field carries the
posting_blocked prefix rather than the bare reason, and a gate-allowed run
whose planner raises also ends with no post at all, so the gate path is not
the only no-post exit. -/
theorem c6_counterexample :
    (runModel envBlockedDaily = (RunResult.blocked "posting_blocked: daily_limit_reached", []) ∧
      "posting_blocked: daily_limit_reached" ≠ "daily_limit_reached") ∧
    runModel envFailNoPost = (RunResult.failed "planner down", []) :=
  ⟨⟨rfl, by decide⟩, rfl⟩

/-- C6 (amended): a gate refusal terminates the run immediately with
success false and error "posting_blocked: " followed by the reason, with no
platform call, no storage write and no fallback publish; however it is not
the only exit with no post, since an unhandled exception also ends the run
without publishing anything. -/
theorem c6_gate_block_behavior :
    (∀ env reason, env.tier = some (false, reason) →
      runModel env = (RunResult.blocked ("posting_blocked: " ++ reason), [])) ∧
    runModel envFailNoPost = (RunResult.failed "planner down", []) := by
  constructor
  · intro env reason h
    simp only [runModel, h]
  · rfl

theorem c6_gate_block_behavior_witness :
    runModel envBlockedDaily = (RunResult.blocked "posting_blocked: daily_limit_reached", []) :=
  c6_gate_block_behavior.1 envBlockedDaily "daily_limit_reached" rfl

theorem runBody_ok_shape (env : Env) (res : RunResult) (tr : List Effect)
    (h : runBody env = .ok (res, tr)) :
    ∃ tid t tools hi mids, res = RunResult.ok tid t tools hi ∧
      tr = [Effect.post t mids, Effect.save t tid hi] := by
  unfold runBody at h
  repeat' split at h
  all_goals try exact Except.noConfusion h
  injection h with h'
  injection h' with ha hb
  subst ha
  subst hb
  exact ⟨_, _, _, _, _, rfl, rfl⟩

/-- C10: on every successful run, the text passed to the platform post call,
the text persisted to storage, and the text in the returned result are the
same string, and the persisted has_image flag equals the has_image of the
result. -/
theorem c10_success_consistency (env : Env) (tid t : String) (tools : List PyVal)
    (hi : Bool) (tr : List Effect)
    (h : runModel env = (RunResult.ok tid t tools hi, tr)) :
    ∃ mids, tr = [Effect.post t mids, Effect.save t tid hi] := by
  unfold runModel at h
  split at h
  · exact absurd (congrArg Prod.fst h) (by simp)
  · split at h
    · rename_i rt heq
      rw [h] at heq
      obtain ⟨tid', t', tools', hi', mids, hres, htr⟩ := runBody_ok_shape env _ _ heq
      injection hres with e1 e2 e3 e4
      subst e1
      subst e2
      subst e3
      subst e4
      exact ⟨mids, htr⟩
    · rename_i e tr' heq
      exact absurd (congrArg Prod.fst h) (by simp)

theorem c10_success_consistency_witness :
    ∃ mids, [Effect.post "We sail at dawn!" (some ["media9"]),
        Effect.save "We sail at dawn!" "tweet7" true] =
      [Effect.post "We sail at dawn!" mids, Effect.save "We sail at dawn!" "tweet7" true] :=
  c10_success_consistency envHappy "tweet7" "We sail at dawn!" [PyVal.str "generate_image"] true
    [Effect.post "We sail at dawn!" (some ["media9"]),
     Effect.save "We sail at dawn!" "tweet7" true] (by rfl)

/-- C7: an exception from the image tool, or a generated image whose upload
raises, never aborts the run: the slot is cleared, the post is published
with no media ids, and the result and the storage write both report
has_image false. -/
theorem c7_image_failure_never_aborts (env : Env) (planResp rawPlan praw : PyVal)
    (prm rk : List (String × PyVal)) (rp t tid : String)
    (hgate : ∀ p, env.tier = some p → p.1 = true)
    (hrecent : env.recentPosts = .ok rp)
    (hplanResp : env.planResponse = .ok planResp)
    (hstage : planStage planResp = .ok rawPlan)
    (hsan : sanitize_plan rawPlan = [mkStep ("generate_image", PyVal.dict prm)])
    (hreact : env.reaction 0 = .ok (.dict rk))
    (hpost : env.postTextResponse = .ok praw)
    (hcompose : compose praw env.fallbackIdx = .ok t)
    (htweet : env.postTweet = .ok tid)
    (hsave : env.savePost = .ok ())
    (hfail : (∃ e, env.generateImage = .error e) ∨
      (∃ b e, b ≠ "" ∧ env.generateImage = .ok b ∧ env.uploadMedia = .error e)) :
    runModel env = (RunResult.ok tid t [PyVal.str "generate_image"] false,
      [Effect.post t Option.none, Effect.save t tid false]) := by
  have hslot : ∃ img : Option String,
      execSteps env [mkStep ("generate_image", PyVal.dict prm)] 0 [] Option.none =
        .ok ([PyVal.str "generate_image"], img) ∧
      uploadStage env img = (Option.none, Option.none) := by
    rcases hfail with ⟨e, hg⟩ | ⟨b, e, hb, hg, hu⟩
    · refine ⟨Option.none, ?_, by rfl⟩
      unfold execSteps execStep
      rw [hg, hreact]
      rfl
    · refine ⟨some b, ?_, ?_⟩
      · unfold execSteps execStep
        rw [hg, hreact]
        rfl
      · unfold uploadStage
        have hbt : bytesTruthy (some b) = true := by
          simp [bytesTruthy, hb]
        rw [hbt, if_pos rfl, hu]
  obtain ⟨img, hexec, hupl⟩ := hslot
  have hbody : runBody env = .ok (RunResult.ok tid t [PyVal.str "generate_image"] false,
      [Effect.post t Option.none, Effect.save t tid false]) := by
    unfold runBody
    simp only [hrecent, hplanResp, hstage, hsan, hexec, hpost, hcompose, hupl, htweet, hsave]
    rfl
  cases ht : env.tier with
  | none => simp only [runModel, ht, hbody]
  | some p =>
    obtain ⟨bb, r⟩ := p
    have hbt : bb = true := hgate (bb, r) ht
    subst hbt
    simp only [runModel, ht, hbody]

theorem c7_image_failure_never_aborts_witness :
    runModel envImgFails = (RunResult.ok "tw9" "Storm ahead!" [PyVal.str "generate_image"] false,
      [Effect.post "Storm ahead!" Option.none, Effect.save "Storm ahead!" "tw9" false]) :=
  c7_image_failure_never_aborts envImgFails
    (.dict [("plan", .list [.dict [("tool", .str "generate_image"),
      ("params", .dict [("prompt", .str "sea")])]]), ("reasoning", .str "pic")])
    (.list [.dict [("tool", .str "generate_image"), ("params", .dict [("prompt", .str "sea")])]])
    (.dict [("post_text", .str "Storm ahead!")])
    [("prompt", PyVal.str "sea")] [("thinking", PyVal.str "ok")]
    "" "Storm ahead!" "tw9"
    (fun p hp => Option.noConfusion hp) rfl rfl (by rfl) (by rfl) rfl rfl (by rfl) rfl rfl
    (Or.inl ⟨"img tool crashed", rfl⟩)

theorem digitChar_facts : ∀ d < 10, (digitChar d).isDigit = true ∧ digitVal (digitChar d) = d ∧
    digitChar d ≠ 'n' ∧ digitChar d ≠ 't' ∧ digitChar d ≠ 'f' ∧ digitChar d ≠ '"' ∧
    digitChar d ≠ '[' ∧ digitChar d ≠ '{' ∧ digitChar d ≠ '-' := by decide

theorem natChars_head (n : Nat) : ∃ d cs, d < 10 ∧ natChars n = digitChar d :: cs := by
  induction n using Nat.strong_induction_on with
  | _ n ih =>
    by_cases h : n < 10
    · exact ⟨n, [], h, by rw [natChars, if_pos h]⟩
    · obtain ⟨d, cs, hd, hcs⟩ := ih (n / 10) (Nat.div_lt_self (by omega) (by omega))
      refine ⟨d, cs ++ [digitChar (n % 10)], hd, ?_⟩
      rw [natChars, if_neg h, hcs]
      simp

theorem parseDigitsAux_chain (n : Nat) : ∀ (a : Nat) (r : List Char),
    parseDigitsAux a (natChars n ++ r) = parseDigitsAux (a * 10 ^ (natChars n).length + n) r := by
  induction n using Nat.strong_induction_on with
  | _ n ih =>
    intro a r
    by_cases h : n < 10
    · rw [natChars, if_pos h]
      simp only [List.cons_append, List.nil_append, parseDigitsAux,
        (digitChar_facts n h).1, if_true, (digitChar_facts n h).2.1]
      simp
    · rw [natChars, if_neg h]
      have hlt : n / 10 < n := Nat.div_lt_self (by omega) (by omega)
      rw [List.append_assoc]
      rw [show [digitChar (n % 10)] ++ r = digitChar (n % 10) :: r from rfl]
      rw [ih (n / 10) hlt a (digitChar (n % 10) :: r)]
      have hm : n % 10 < 10 := Nat.mod_lt _ (by omega)
      simp only [parseDigitsAux, (digitChar_facts _ hm).1, if_true, (digitChar_facts _ hm).2.1]
      have harith : (a * 10 ^ (natChars (n / 10)).length + n / 10) * 10 + n % 10 =
          a * 10 ^ (natChars (n / 10) ++ [digitChar (n % 10)]).length + n := by
        rw [List.length_append, List.length_cons, List.length_nil, pow_succ]
        have := Nat.div_add_mod n 10
        ring_nf
        omega
      rw [harith]

theorem parseDigitsAux_stop (a : Nat) (r : List Char) (h : noDigitHead r) :
    parseDigitsAux a r = (a, r) := by
  cases r with
  | nil => rfl
  | cons c cs =>
    have hc : c.isDigit = false := h
    simp only [parseDigitsAux, hc]
    simp

theorem parseDigits_natChars (n : Nat) (r : List Char) (h : noDigitHead r) :
    parseDigits (natChars n ++ r) = some (n, r) := by
  obtain ⟨d, cs, hd, hcs⟩ := natChars_head n
  rw [hcs]
  simp only [List.cons_append, parseDigits, (digitChar_facts d hd).1, if_true]
  rw [← List.cons_append, ← hcs, parseDigitsAux_chain n 0 r, parseDigitsAux_stop _ _ h]
  simp

theorem hexRound : ∀ m < 16, hexVal (hexDigitChar m) = some m := by decide

theorem escapeChar_length_pos (c : Char) : 1 ≤ (escapeChar c).length := by
  unfold escapeChar
  split_ifs <;> simp

theorem parseStringAux_escape (l : List Char) : ∀ (fuel : Nat) (acc r : List Char),
    (escapeList l).length < fuel →
    parseStringAux fuel acc (escapeList l ++ '"' :: r) = some (⟨acc.reverse ++ l⟩, r) := by
  induction l with
  | nil =>
    intro fuel acc r hf
    cases fuel with
    | zero => omega
    | succ f => simp [escapeList, parseStringAux]
  | cons c l ih =>
    intro fuel acc r hf
    cases fuel with
    | zero => omega
    | succ f =>
      have hlen : (escapeList l).length < f := by
        have h1 := escapeChar_length_pos c
        have h2 : (escapeList (c :: l)).length = (escapeChar c).length + (escapeList l).length := by
          rw [show escapeList (c :: l) = escapeChar c ++ escapeList l from rfl, List.length_append]
        omega
      rw [show escapeList (c :: l) = escapeChar c ++ escapeList l from rfl, List.append_assoc]
      by_cases h1 : c = '"'
      · subst h1
        rw [show escapeChar '"' = ['\\', '"'] from rfl]
        rw [show parseStringAux (f + 1) acc (['\\', '"'] ++ (escapeList l ++ '"' :: r)) =
            parseStringAux f ('"' :: acc) (escapeList l ++ '"' :: r) from rfl, ih f _ _ hlen]
        simp
      · by_cases h2 : c = '\\'
        · subst h2
          rw [show escapeChar '\\' = ['\\', '\\'] from rfl]
          rw [show parseStringAux (f + 1) acc (['\\', '\\'] ++ (escapeList l ++ '"' :: r)) =
              parseStringAux f ('\\' :: acc) (escapeList l ++ '"' :: r) from rfl, ih f _ _ hlen]
          simp
        · by_cases h3 : c = '\n'
          · subst h3
            rw [show escapeChar '\n' = ['\\', 'n'] from rfl]
            rw [show parseStringAux (f + 1) acc (['\\', 'n'] ++ (escapeList l ++ '"' :: r)) =
                parseStringAux f ('\n' :: acc) (escapeList l ++ '"' :: r) from rfl, ih f _ _ hlen]
            simp
          · by_cases h4 : c = '\t'
            · subst h4
              rw [show escapeChar '\t' = ['\\', 't'] from rfl]
              rw [show parseStringAux (f + 1) acc (['\\', 't'] ++ (escapeList l ++ '"' :: r)) =
                  parseStringAux f ('\t' :: acc) (escapeList l ++ '"' :: r) from rfl, ih f _ _ hlen]
              simp
            · by_cases h5 : c = '\r'
              · subst h5
                rw [show escapeChar '\r' = ['\\', 'r'] from rfl]
                rw [show parseStringAux (f + 1) acc (['\\', 'r'] ++ (escapeList l ++ '"' :: r)) =
                    parseStringAux f ('\r' :: acc) (escapeList l ++ '"' :: r) from rfl, ih f _ _ hlen]
                simp
              · by_cases h6 : c.toNat < 32
                · rw [show escapeChar c = '\\' :: 'u' :: '0' :: '0' :: hexByte c.toNat from by
                    unfold escapeChar
                    rw [if_neg h1, if_neg h2, if_neg h3, if_neg h4, if_neg h5, if_pos h6]]
                  have hdiv : hexVal (hexDigitChar (c.toNat / 16)) = some (c.toNat / 16) :=
                    hexRound _ (by omega)
                  have hmod : hexVal (hexDigitChar (c.toNat % 16)) = some (c.toNat % 16) :=
                    hexRound _ (by omega)
                  rw [show parseStringAux (f + 1) acc (('\\' :: 'u' :: '0' :: '0' ::
                      hexByte c.toNat) ++
                        (escapeList l ++ '"' :: r)) =
                      (match hexVal '0', hexVal '0', hexVal (hexDigitChar (c.toNat / 16)),
                          hexVal (hexDigitChar (c.toNat % 16)) with
                      | some a, some b, some c2, some d =>
                        let n := ((a * 16 + b) * 16 + c2) * 16 + d
                        if Nat.isValidChar n then
                          parseStringAux f (Char.ofNat n :: acc) (escapeList l ++ '"' :: r)
                        else Option.none
                      | _, _, _, _ => Option.none) from rfl]
                  rw [hdiv, hmod]
                  rw [show hexVal '0' = some 0 from rfl]
                  have hvalid : Nat.isValidChar (((0 * 16 + 0) * 16 + c.toNat / 16) * 16 + c.toNat % 16) := by
                    left
                    have := Nat.div_add_mod c.toNat 16
                    omega
                  rw [show (match (some 0 : Option Nat), (some 0 : Option Nat),
                        (some (c.toNat / 16) : Option Nat), (some (c.toNat % 16) : Option Nat) with
                      | some a, some b, some c2, some d =>
                        let n := ((a * 16 + b) * 16 + c2) * 16 + d
                        if Nat.isValidChar n then
                          parseStringAux f (Char.ofNat n :: acc) (escapeList l ++ '"' :: r)
                        else Option.none
                      | _, _, _, _ => Option.none) =
                      (if Nat.isValidChar (((0 * 16 + 0) * 16 + c.toNat / 16) * 16 + c.toNat % 16) then
                        parseStringAux f
                          (Char.ofNat (((0 * 16 + 0) * 16 + c.toNat / 16) * 16 + c.toNat % 16) :: acc)
                          (escapeList l ++ '"' :: r)
                      else Option.none) from rfl]
                  rw [if_pos hvalid]
                  rw [show ((0 * 16 + 0) * 16 + c.toNat / 16) * 16 + c.toNat % 16 = c.toNat from by
                    have := Nat.div_add_mod c.toNat 16
                    omega]
                  rw [Char.ofNat_toNat, ih f _ _ hlen]
                  simp
                · rw [show escapeChar c = [c] from by
                    unfold escapeChar
                    rw [if_neg h1, if_neg h2, if_neg h3, if_neg h4, if_neg h5, if_neg h6]]
                  rw [show ([c] ++ (escapeList l ++ '"' :: r)) = c :: (escapeList l ++ '"' :: r) from rfl]
                  simp only [parseStringAux]
                  rw [if_neg h1, if_neg h2, ih f _ _ hlen]
                  simp

theorem jsize_pos : ∀ v : PyVal, 1 ≤ jsize v := by
  intro v
  cases v <;> simp [jsize]

theorem jsizeList_cons_pos (x : PyVal) (xs : List PyVal) : 1 ≤ jsizeList (x :: xs) := by
  simp only [jsizeList]
  omega

theorem jsizeKvs_cons_pos (kv : String × PyVal) (kvs : List (String × PyVal)) :
    1 ≤ jsizeKvs (kv :: kvs) := by
  simp only [jsizeKvs]
  omega

theorem skipWs_cons (c : Char) (t : List Char)
    (h : (c == ' ' || c == '\t' || c == '\n' || c == '\r') = false) :
    skipWs (c :: t) = c :: t := by
  simp only [skipWs, List.dropWhile]
  rw [h]

theorem digitChar_headOk : ∀ d < 10,
    (digitChar d == ' ' || digitChar d == '\t' || digitChar d == '\n' || digitChar d == '\r') = false ∧
    digitChar d ≠ ']' ∧ digitChar d ≠ '}' := by decide

/-- The head of an encoded value: never whitespace, never a closing
bracket, never a closing brace, and the encoding is never empty. -/
theorem dumpVal_head (v : PyVal) : ∃ c cs, dumpVal v = c :: cs ∧
    (c == ' ' || c == '\t' || c == '\n' || c == '\r') = false ∧ c ≠ ']' ∧ c ≠ '}' := by
  have hlit : ∀ c0 : Char, c0 ∈ ['n', 't', 'f', '-', '"', '[', '{'] →
      (c0 == ' ' || c0 == '\t' || c0 == '\n' || c0 == '\r') = false ∧ c0 ≠ ']' ∧ c0 ≠ '}' := by
    decide
  cases v with
  | none => exact ⟨'n', _, rfl, hlit 'n' (by decide)⟩
  | bool b =>
    cases b with
    | true => exact ⟨'t', _, rfl, hlit 't' (by decide)⟩
    | false => exact ⟨'f', _, rfl, hlit 'f' (by decide)⟩
  | int n =>
    cases n with
    | ofNat m =>
      obtain ⟨d, cs, hd, hcs⟩ := natChars_head m
      obtain ⟨w1, w2, w3⟩ := digitChar_headOk d hd
      refine ⟨digitChar d, cs, ?_, w1, w2, w3⟩
      rw [show dumpVal (.int (.ofNat m)) = natChars m from rfl, hcs]
    | negSucc m => exact ⟨'-', _, rfl, hlit '-' (by decide)⟩
  | str s => exact ⟨'"', _, rfl, hlit '"' (by decide)⟩
  | list xs =>
    cases xs with
    | nil => exact ⟨'[', _, rfl, hlit '[' (by decide)⟩
    | cons x xs => exact ⟨'[', _, rfl, hlit '[' (by decide)⟩
  | dict kvs =>
    cases kvs with
    | nil => exact ⟨'{', _, rfl, hlit '{' (by decide)⟩
    | cons kv kvs => exact ⟨'{', _, rfl, hlit '{' (by decide)⟩

mutual

theorem jsize_le_dump (v : PyVal) : jsize v ≤ (dumpVal v).length := by
  cases v with
  | none => simp [jsize, dumpVal]
  | bool b => cases b <;> simp [jsize, dumpVal]
  | int n =>
    have h : 1 ≤ (dumpVal (.int n)).length := by
      obtain ⟨c, cs, hc, _, _, _⟩ := dumpVal_head (.int n)
      rw [hc]
      simp
    simpa [jsize] using h
  | str s => simp [jsize, dumpVal]
  | list xs =>
    cases xs with
    | nil => simp [jsize, jsizeList, dumpVal]
    | cons x xs =>
      have h1 := jsize_le_dump x
      have h2 := jsizeList_le_dump xs
      simp only [jsize, jsizeList, dumpVal, List.length_cons, List.length_append]
      omega
  | dict kvs =>
    cases kvs with
    | nil => simp [jsize, jsizeKvs, dumpVal]
    | cons kv kvs =>
      have h1 := jsize_le_dump kv.2
      have h2 := jsizeKvs_le_dump kvs
      have h3 : (dumpPair kv).length = 1 + (escapeList kv.1.data).length + 2 + (dumpVal kv.2).length := by
        obtain ⟨k, v2⟩ := kv
        simp [dumpPair]
        omega
      simp only [jsize, jsizeKvs, dumpVal, List.length_cons, List.length_append]
      omega

theorem jsizeList_le_dump (xs : List PyVal) : jsizeList xs ≤ (dumpArrRest xs).length := by
  cases xs with
  | nil => simp [jsizeList, dumpArrRest]
  | cons x xs =>
    have h1 := jsize_le_dump x
    have h2 := jsizeList_le_dump xs
    simp only [jsizeList, dumpArrRest, List.length_cons, List.length_append]
    omega

theorem jsizeKvs_le_dump (kvs : List (String × PyVal)) : jsizeKvs kvs ≤ (dumpObjRest kvs).length := by
  cases kvs with
  | nil => simp [jsizeKvs, dumpObjRest]
  | cons kv kvs =>
    have h1 := jsize_le_dump kv.2
    have h2 := jsizeKvs_le_dump kvs
    have h3 : (dumpPair kv).length = 1 + (escapeList kv.1.data).length + 2 + (dumpVal kv.2).length := by
      obtain ⟨k, v2⟩ := kv
      simp [dumpPair]
      omega
    simp only [jsizeKvs, dumpObjRest, List.length_cons, List.length_append]
    omega

end

theorem insertKey_not_mem (acc : List (String × PyVal)) (k : String) (v : PyVal)
    (h : keyMem k acc = false) : insertKey acc k v = acc ++ [(k, v)] := by
  induction acc with
  | nil => rfl
  | cons kv rest ih =>
    simp only [keyMem, Bool.or_eq_false_iff] at h
    have hne : ¬ kv.1 = k := by
      intro he
      rw [he] at h
      simp at h
    simp only [insertKey, if_neg hne, ih h.2, List.cons_append]

theorem keyMem_append (k : String) (l1 l2 : List (String × PyVal)) :
    keyMem k (l1 ++ l2) = (keyMem k l1 || keyMem k l2) := by
  induction l1 with
  | nil => simp [keyMem]
  | cons kv rest ih => simp [keyMem, ih, Bool.or_assoc]

theorem keyMem_false_of_mem (k : String) (l : List (String × PyVal)) (kv : String × PyVal)
    (h : keyMem k l = false) (hm : kv ∈ l) : (k == kv.1) = false := by
  induction l with
  | nil => cases hm
  | cons kv2 rest ih =>
    simp only [keyMem, Bool.or_eq_false_iff] at h
    cases hm with
    | head => exact h.1
    | tail _ hm2 => exact ih h.2 hm2

theorem buildDict_nodup : ∀ kvs acc, keysNodupB kvs = true →
    (∀ kv ∈ kvs, keyMem kv.1 acc = false) →
    buildDict acc kvs = acc ++ kvs := by
  intro kvs
  induction kvs with
  | nil =>
    intro acc _ _
    simp [buildDict]
  | cons kv rest ih =>
    intro acc hnd hdis
    simp only [keysNodupB, Bool.and_eq_true, Bool.not_eq_true'] at hnd
    obtain ⟨hkm, hnd2⟩ := hnd
    have hkv : keyMem kv.1 acc = false := hdis kv (List.mem_cons_self _ _)
    have hdis2 : ∀ kv2 ∈ rest, keyMem kv2.1 (acc ++ [(kv.1, kv.2)]) = false := by
      intro kv2 hkv2
      rw [keyMem_append]
      have h1 : keyMem kv2.1 acc = false := hdis kv2 (List.mem_cons_of_mem _ hkv2)
      have hne : (kv.1 == kv2.1) = false := keyMem_false_of_mem kv.1 rest kv2 hkm hkv2
      have h2 : keyMem kv2.1 [(kv.1, kv.2)] = false := by
        simp only [keyMem, Bool.or_eq_false_iff]
        refine ⟨?_, trivial⟩
        cases hb : (kv2.1 == kv.1) with
        | false => rfl
        | true =>
          have hee : kv2.1 = kv.1 := eq_of_beq hb
          rw [hee] at hne
          simp at hne
      rw [h1, h2]
      rfl
    simp only [buildDict]
    rw [insertKey_not_mem acc kv.1 kv.2 hkv]
    rw [ih (acc ++ [(kv.1, kv.2)]) hnd2 hdis2]
    simp

theorem buildDict_nil (kvs : List (String × PyVal)) (h : keysNodupB kvs = true) :
    buildDict [] kvs = kvs := by
  rw [buildDict_nodup kvs [] h (fun kv _ => rfl)]
  simp

theorem parse_dump : ∀ fuel : Nat,
    (∀ v r, jsize v ≤ fuel → noDigitHead r → canonV v = true →
      parseVal fuel (dumpVal v ++ r) = some (v, r)) ∧
    (∀ x xs r, jsizeList (x :: xs) ≤ fuel → canonL (x :: xs) = true →
      parseArrItems fuel (dumpVal x ++ (dumpArrRest xs ++ ']' :: r)) = some (x :: xs, r)) ∧
    (∀ kv kvs r, jsizeKvs (kv :: kvs) ≤ fuel → canonKvs (kv :: kvs) = true →
      parseObjItems fuel (dumpPair kv ++ (dumpObjRest kvs ++ '}' :: r)) = some (kv :: kvs, r)) := by
  intro fuel
  induction fuel with
  | zero =>
    refine ⟨?_, ?_, ?_⟩
    · intro v r hs _ _
      exact absurd hs (by have := jsize_pos v; omega)
    · intro x xs r hs _
      exact absurd hs (by have := jsizeList_cons_pos x xs; omega)
    · intro kv kvs r hs _
      exact absurd hs (by have := jsizeKvs_cons_pos kv kvs; omega)
  | succ f ih =>
    obtain ⟨ihV, ihA, ihO⟩ := ih
    have harr : ∀ x xs r, jsizeList (x :: xs) ≤ f + 1 → canonL (x :: xs) = true →
        parseArrItems (f + 1) (dumpVal x ++ (dumpArrRest xs ++ ']' :: r)) = some (x :: xs, r) := by
      intro x xs r hs hcan
      simp only [canonL, Bool.and_eq_true] at hcan
      obtain ⟨hcx, hcxs⟩ := hcan
      have hsx : jsize x ≤ f := by
        simp only [jsizeList] at hs
        omega
      have hrest : noDigitHead (dumpArrRest xs ++ ']' :: r) := by
        cases xs with
        | nil => exact (by decide : (']').isDigit = false)
        | cons y ys => exact (by decide : (',').isDigit = false)
      cases xs with
      | nil =>
        simp only [parseArrItems, ihV x _ hsx hrest hcx]
        rw [show dumpArrRest [] ++ ']' :: r = ']' :: r from rfl]
        rw [skipWs_cons _ _ (by decide)]
        rfl
      | cons y ys =>
        have hsys : jsizeList (y :: ys) ≤ f := by
          simp only [jsizeList] at hs ⊢
          have := jsize_pos x
          omega
        simp only [parseArrItems, ihV x _ hsx hrest hcx]
        rw [show dumpArrRest (y :: ys) ++ ']' :: r =
            ',' :: (dumpVal y ++ (dumpArrRest ys ++ ']' :: r)) from by
          simp [dumpArrRest]]
        rw [skipWs_cons _ _ (by decide)]
        simp only [dropHead, if_pos (rfl : ',' = ','), if_true, ihA y ys r hsys hcxs]
    have hobj : ∀ kv kvs r, jsizeKvs (kv :: kvs) ≤ f + 1 → canonKvs (kv :: kvs) = true →
        parseObjItems (f + 1) (dumpPair kv ++ (dumpObjRest kvs ++ '}' :: r)) = some (kv :: kvs, r) := by
      intro kv kvs r hs hcan
      obtain ⟨k, v⟩ := kv
      simp only [canonKvs, Bool.and_eq_true] at hcan
      obtain ⟨hcv, hckvs⟩ := hcan
      have hsv : jsize v ≤ f := by
        simp only [jsizeKvs] at hs
        omega
      have hrest : noDigitHead (dumpObjRest kvs ++ '}' :: r) := by
        cases kvs with
        | nil => exact (by decide : ('}').isDigit = false)
        | cons kv2 kvs2 => exact (by decide : (',').isDigit = false)
      rw [show dumpPair (k, v) ++ (dumpObjRest kvs ++ '}' :: r) =
          '"' :: (escapeList k.data ++ '"' :: (':' :: (dumpVal v ++ (dumpObjRest kvs ++ '}' :: r)))) from by
        simp [dumpPair]]
      simp only [parseObjItems]
      rw [skipWs_cons _ _ (by decide)]
      have hkey := parseStringAux_escape k.data
        ((escapeList k.data ++ '"' :: (':' :: (dumpVal v ++ (dumpObjRest kvs ++ '}' :: r)))).length + 1)
        [] (':' :: (dumpVal v ++ (dumpObjRest kvs ++ '}' :: r)))
        (by simp [List.length_append]; omega)
      simp only [List.reverse_nil, List.nil_append] at hkey
      simp only [dropHead, if_pos (rfl : '"' = '"'), if_true, hkey]
      rw [show (⟨k.data⟩ : String) = k from rfl]
      rw [skipWs_cons _ _ (by decide)]
      simp only [dropHead, if_pos (rfl : ':' = ':'), if_true]
      simp only [ihV v _ hsv hrest hcv]
      cases kvs with
      | nil =>
        rw [show dumpObjRest [] ++ '}' :: r = '}' :: r from rfl]
        rw [skipWs_cons _ _ (by decide)]
        rfl
      | cons kv2 kvs2 =>
        have hsys : jsizeKvs (kv2 :: kvs2) ≤ f := by
          simp only [jsizeKvs] at hs ⊢
          have := jsize_pos v
          omega
        rw [show dumpObjRest (kv2 :: kvs2) ++ '}' :: r =
            ',' :: (dumpPair kv2 ++ (dumpObjRest kvs2 ++ '}' :: r)) from by
          simp [dumpObjRest]]
        rw [skipWs_cons _ _ (by decide)]
        simp only [dropHead, if_pos (rfl : ',' = ','), if_true, ihO kv2 kvs2 r hsys hckvs]
    refine ⟨?_, harr, hobj⟩
    intro v r hs hr hcv
    cases v with
    | none => rfl
    | bool b => cases b <;> rfl
    | int n =>
      cases n with
      | ofNat m =>
        obtain ⟨d, cs, hd, hcs⟩ := natChars_head m
        have hfacts := digitChar_facts d hd
        rw [show dumpVal (.int (.ofNat m)) = natChars m from rfl, hcs]
        rw [show (digitChar d :: cs) ++ r = digitChar d :: (cs ++ r) from rfl]
        simp only [parseVal]
        rw [skipWs_cons _ _ (digitChar_headOk d hd).1]
        simp only [if_neg hfacts.2.2.1, if_neg hfacts.2.2.2.1, if_neg hfacts.2.2.2.2.1,
          if_neg hfacts.2.2.2.2.2.1, if_neg hfacts.2.2.2.2.2.2.1,
          if_neg hfacts.2.2.2.2.2.2.2.1, if_neg hfacts.2.2.2.2.2.2.2.2, if_pos hfacts.1, if_true]
        rw [show digitChar d :: (cs ++ r) = (digitChar d :: cs) ++ r from rfl, ← hcs]
        simp only [parseDigits_natChars m r hr]
        rfl
      | negSucc m =>
        obtain ⟨d, cs, hd, hcs⟩ := natChars_head (m + 1)
        have hfacts := digitChar_facts d hd
        rw [show dumpVal (.int (.negSucc m)) = '-' :: natChars (m + 1) from rfl]
        rw [show ('-' :: natChars (m + 1)) ++ r = '-' :: (natChars (m + 1) ++ r) from rfl]
        simp only [parseVal]
        rw [skipWs_cons _ _ (by decide)]
        simp only [if_neg (by decide : ¬('-' = 'n')), if_neg (by decide : ¬('-' = 't')),
          if_neg (by decide : ¬('-' = 'f')), if_neg (by decide : ¬('-' = '"')),
          if_neg (by decide : ¬('-' = '[')), if_neg (by decide : ¬('-' = '{')),
          if_pos (rfl : '-' = '-'), if_true]
        rw [hcs, show (digitChar d :: cs) ++ r = digitChar d :: (cs ++ r) from rfl]
        simp only [if_pos hfacts.1, if_true]
        rw [show digitChar d :: (cs ++ r) = (digitChar d :: cs) ++ r from rfl, ← hcs]
        simp only [parseDigits_natChars (m + 1) r hr]
        have heq : (-((m + 1 : Nat) : Int)) = Int.negSucc m := by
          rw [Int.negSucc_eq]
          push_cast
          ring
        rw [heq]
    | str s =>
      rw [show dumpVal (.str s) ++ r = '"' :: (escapeList s.data ++ '"' :: r) from by
        simp [dumpVal]]
      simp only [parseVal]
      rw [skipWs_cons _ _ (by decide)]
      simp only [if_neg (by decide : ¬('"' = 'n')), if_neg (by decide : ¬('"' = 't')),
        if_neg (by decide : ¬('"' = 'f')), if_pos (rfl : '"' = '"'), if_true]
      have hkey := parseStringAux_escape s.data
        ((escapeList s.data ++ '"' :: r).length + 1) [] r
        (by simp [List.length_append]; omega)
      simp only [List.reverse_nil, List.nil_append] at hkey
      simp only [hkey]
    | list xs =>
      cases xs with
      | nil => rfl
      | cons x xs =>
        rw [show dumpVal (.list (x :: xs)) ++ r =
            '[' :: (dumpVal x ++ (dumpArrRest xs ++ ']' :: r)) from by
          simp [dumpVal]]
        simp only [parseVal]
        rw [skipWs_cons _ _ (by decide)]
        simp only [if_neg (by decide : ¬('[' = 'n')), if_neg (by decide : ¬('[' = 't')),
          if_neg (by decide : ¬('[' = 'f')), if_neg (by decide : ¬('[' = '"')),
          if_pos (rfl : '[' = '['), if_true]
        obtain ⟨c, cs, hc, hws, hbr, _⟩ := dumpVal_head x
        rw [hc, show (c :: cs) ++ (dumpArrRest xs ++ ']' :: r) =
            c :: (cs ++ (dumpArrRest xs ++ ']' :: r)) from rfl]
        rw [skipWs_cons _ _ hws]
        simp only [dropHead, if_neg hbr]
        rw [show c :: (cs ++ (dumpArrRest xs ++ ']' :: r)) =
            (c :: cs) ++ (dumpArrRest xs ++ ']' :: r) from rfl, ← hc]
        simp only [canonV] at hcv
        simp only [ihA x xs r (by simp only [jsize] at hs; omega) hcv]
    | dict kvs =>
      cases kvs with
      | nil => rfl
      | cons kv kvs =>
        rw [show dumpVal (.dict (kv :: kvs)) ++ r =
            '{' :: (dumpPair kv ++ (dumpObjRest kvs ++ '}' :: r)) from by
          simp [dumpVal]]
        simp only [parseVal]
        rw [skipWs_cons _ _ (by decide)]
        simp only [if_neg (by decide : ¬('{' = 'n')), if_neg (by decide : ¬('{' = 't')),
          if_neg (by decide : ¬('{' = 'f')), if_neg (by decide : ¬('{' = '"')),
          if_neg (by decide : ¬('{' = '[')), if_pos (rfl : '{' = '{')]
        rw [show dumpPair kv ++ (dumpObjRest kvs ++ '}' :: r) =
            '"' :: (escapeList kv.1.data ++ '"' :: (':' :: (dumpVal kv.2 ++ (dumpObjRest kvs ++ '}' :: r)))) from by
          obtain ⟨k, v⟩ := kv
          simp [dumpPair]]
        rw [skipWs_cons _ _ (by decide)]
        simp only [dropHead, if_neg (by decide : ¬('"' = '}'))]
        rw [show '"' :: (escapeList kv.1.data ++ '"' ::
            (':' :: (dumpVal kv.2 ++ (dumpObjRest kvs ++ '}' :: r)))) =
            dumpPair kv ++ (dumpObjRest kvs ++ '}' :: r) from by
          obtain ⟨k, v⟩ := kv
          simp [dumpPair]]
        simp only [canonV, Bool.and_eq_true] at hcv
        simp only [ihO kv kvs r (by simp only [jsize] at hs; omega) hcv.2]
        simp [buildDict_nil (kv :: kvs) hcv.1]

theorem loads_dumps (v : PyVal) (hc : canonV v = true) : loads (dumps v) = some v := by
  unfold loads dumps
  rw [show (⟨dumpVal v⟩ : String).data = dumpVal v from rfl]
  have h := (parse_dump ((dumpVal v).length + 1)).1 v []
    (by have := jsize_le_dump v; omega) (by trivial) hc
  rw [List.append_nil] at h
  rw [h]
  rfl

theorem loads_fence_fail (v : PyVal) :
    loads ("```json\n" ++ dumps v ++ "\n```") = Option.none := by
  unfold loads
  have hd : ("```json\n" ++ dumps v ++ "\n```").data =
      '`' :: '`' :: '`' :: 'j' :: 's' :: 'o' :: 'n' :: '\n' ::
        (dumpVal v ++ ['\n', '`', '`', '`']) := rfl
  rw [hd]
  simp only [parseVal]
  rw [skipWs_cons _ _ (by decide)]
  simp only [if_neg (by decide : ¬('`' = 'n')), if_neg (by decide : ¬('`' = 't')),
    if_neg (by decide : ¬('`' = 'f')), if_neg (by decide : ¬('`' = '"')),
    if_neg (by decide : ¬('`' = '[')), if_neg (by decide : ¬('`' = '{')),
    if_neg (by decide : ¬('`' = '-')), if_neg (by decide : ¬(('`').isDigit = true))]

theorem dropWhile_append_skip (l1 l2 : List Char) (p : Char → Bool)
    (h : ∀ c ∈ l1, p c = true) :
    (l1 ++ l2).dropWhile p = l2.dropWhile p := by
  induction l1 with
  | nil => rfl
  | cons c cs ih =>
    rw [List.cons_append, List.dropWhile_cons, if_pos (h c (List.mem_cons_self _ _))]
    exact ih (fun c2 hc2 => h c2 (List.mem_cons_of_mem _ hc2))

theorem dumpVal_dict_shape (kvs : List (String × PyVal)) :
    ∃ mid, dumpVal (.dict kvs) = '{' :: (mid ++ ['}']) := by
  cases kvs with
  | nil => exact ⟨[], rfl⟩
  | cons kv kvs =>
    refine ⟨dumpPair kv ++ dumpObjRest kvs, ?_⟩
    simp [dumpVal]

theorem extractBracesAux_eq (cs rest : List Char)
    (h : cs.dropWhile (fun c => !(c == '{')) = '{' :: rest) :
    extractBracesAux cs =
      (if (rest.reverse.dropWhile (fun c => !(c == '}'))).isEmpty then Option.none
       else some ('{' :: (rest.reverse.dropWhile (fun c => !(c == '}'))).reverse)) := by
  unfold extractBracesAux
  rw [h]

theorem extractBraces_fence (kvs : List (String × PyVal)) :
    extractBraces ("```json\n" ++ dumps (.dict kvs) ++ "\n```") = some (dumps (.dict kvs)) := by
  obtain ⟨mid, hmid⟩ := dumpVal_dict_shape kvs
  have hd : ("```json\n" ++ dumps (.dict kvs) ++ "\n```").data =
      ['`', '`', '`', 'j', 's', 'o', 'n', '\n'] ++ (dumpVal (.dict kvs) ++ ['\n', '`', '`', '`']) := rfl
  have hdrop : ("```json\n" ++ dumps (.dict kvs) ++ "\n```").data.dropWhile (fun c => !(c == '{')) =
      '{' :: ((mid ++ ['}']) ++ ['\n', '`', '`', '`']) := by
    rw [hd, hmid]
    rw [show ('{' :: (mid ++ ['}'])) ++ ['\n', '`', '`', '`'] =
        '{' :: ((mid ++ ['}']) ++ ['\n', '`', '`', '`']) from rfl]
    rw [dropWhile_append_skip _ _ _ (by decide)]
    rw [List.dropWhile_cons, if_neg (by decide)]
  have hdrop2 : (((mid ++ ['}']) ++ ['\n', '`', '`', '`']).reverse).dropWhile (fun c => !(c == '}')) =
      '}' :: mid.reverse := by
    have hrev : (((mid ++ ['}']) ++ ['\n', '`', '`', '`'])).reverse =
        ['`', '`', '`', '\n'] ++ ('}' :: mid.reverse) := by
      simp
    rw [hrev]
    rw [dropWhile_append_skip _ _ _ (by decide)]
    rw [List.dropWhile_cons, if_neg (by decide)]
  unfold extractBraces
  rw [extractBracesAux_eq _ _ hdrop, hdrop2]
  simp only [List.isEmpty_cons, List.reverse_cons, List.reverse_reverse, Bool.false_eq_true,
    if_false]
  rw [show dumps (.dict kvs) = (⟨'{' :: (mid ++ ['}'])⟩ : String) from by
    unfold dumps
    rw [hmid]]
  rfl

/-- C9: a plan expressed as its JSON encoding wrapped in a fenced code
block parses to the same mapping as the plan passed as a raw structured
value, and hence the downstream plan stage (and so the sanitized plan) is
the same; the mapping is required to be canonical (every object with
distinct keys), which is exactly the mappings a Python dict can
represent. -/
theorem c9_fenced_roundtrip (kvs : List (String × PyVal))
    (hc : canonV (.dict kvs) = true) :
    parsePlanResult (.str ("```json\n" ++ dumps (.dict kvs) ++ "\n```")) =
      parsePlanResult (.dict kvs) ∧
    planStage (.str ("```json\n" ++ dumps (.dict kvs) ++ "\n```")) =
      planStage (.dict kvs) := by
  have h1 : loads ("```json\n" ++ dumps (.dict kvs) ++ "\n```") = Option.none :=
    loads_fence_fail _
  have h2 : parsePlanNoDecode ("```json\n" ++ dumps (.dict kvs) ++ "\n```") = .dict kvs := by
    rw [parsePlanNoDecode_eq _ _ (extractBraces_fence kvs), loads_dumps _ hc]
  have hmain : parsePlanResult (.str ("```json\n" ++ dumps (.dict kvs) ++ "\n```")) =
      parsePlanResult (.dict kvs) := by
    simp only [parsePlanResult, h1]
    exact h2
  refine ⟨hmain, ?_⟩
  unfold planStage
  rw [hmain]

theorem c9_fenced_roundtrip_witness :
    canonV (.dict [("plan", .list []), ("reasoning", .str "go")]) = true ∧
    (parsePlanResult (.str ("```json\n" ++
          dumps (.dict [("plan", .list []), ("reasoning", .str "go")]) ++ "\n```")) =
        parsePlanResult (.dict [("plan", .list []), ("reasoning", .str "go")]) ∧
      planStage (.str ("```json\n" ++
          dumps (.dict [("plan", .list []), ("reasoning", .str "go")]) ++ "\n```")) =
        planStage (.dict [("plan", .list []), ("reasoning", .str "go")])) :=
  ⟨rfl, c9_fenced_roundtrip [("plan", .list []), ("reasoning", .str "go")] rfl⟩
